import Mathlib

/-!
Verification development for the php-encryptor repository.

The encryption core (`src/core/encryptor.py`, `src/core/decryptor.py`,
`src/core/key_manager.py`) and the obfuscator (`src/utils/obfuscator.py`)
are shallowly embedded below.  Byte strings are `List Nat` (each entry a
byte value, `< 256` where that matters).  The external library primitives
the code calls (AES-256-GCM, HMAC-SHA256, PBKDF2, `secrets.token_bytes`)
are taken as parameters; their documented contracts appear as explicit
hypotheses of the theorems.  The pure text/data plumbing the code relies
on (base64, the JSON chunk-list serialization, the regex field extraction
from the generated PHP stub) is implemented concretely.
-/

namespace PhpEnc

/-- Byte strings: lists of byte values. -/
abbrev Bytes := List Nat

/-! ## base64 (RFC 4648), as used by the Python functions `base64.b64encode` and `base64.b64decode` -/

/-- The base64 alphabet: sextet value to ASCII code. -/
def b64Char (n : Nat) : Nat :=
  if n < 26 then 65 + n
  else if n < 52 then 97 + (n - 26)
  else if n < 62 then 48 + (n - 52)
  else if n = 62 then 43 else 47

/-- ASCII code back to sextet value; `none` off the alphabet. -/
def b64CharDec (c : Nat) : Option Nat :=
  if 65 ≤ c ∧ c ≤ 90 then some (c - 65)
  else if 97 ≤ c ∧ c ≤ 122 then some (c - 97 + 26)
  else if 48 ≤ c ∧ c ≤ 57 then some (c - 48 + 52)
  else if c = 43 then some 62
  else if c = 47 then some 63
  else none

/-- `base64.b64encode`: bytes to the ASCII codes of the encoding
(61 is the code of the padding character). -/
def base64Encode : Bytes → Bytes
  | [] => []
  | [a] => [b64Char (a / 4), b64Char (a % 4 * 16), 61, 61]
  | [a, b] => [b64Char (a / 4), b64Char (a % 4 * 16 + b / 16), b64Char (b % 16 * 4), 61]
  | a :: b :: c :: rest =>
      b64Char (a / 4) :: b64Char (a % 4 * 16 + b / 16) ::
        b64Char (b % 16 * 4 + c / 64) :: b64Char (c % 64) :: base64Encode rest

/-- Characters `b64decode` keeps: the alphabet plus padding
(Python discards all other characters before decoding). -/
def isB64Code (c : Nat) : Bool := (b64CharDec c).isSome || c == 61

/-- Decode a base64 text four characters at a time; padding only in the
final group.  Residual bits in a padded group are ignored, as Python does. -/
def b64Groups : Bytes → Option Bytes
  | [] => some []
  | a :: b :: c :: d :: rest =>
    match b64CharDec a, b64CharDec b with
    | some s1, some s2 =>
      if c = 61 then
        if d = 61 ∧ rest = [] then some [s1 * 4 + s2 / 16] else none
      else
        match b64CharDec c with
        | some s3 =>
          if d = 61 then
            if rest = [] then some [s1 * 4 + s2 / 16, s2 % 16 * 16 + s3 / 4] else none
          else
            match b64CharDec d with
            | some s4 =>
              (b64Groups rest).map
                (fun r => (s1 * 4 + s2 / 16) :: (s2 % 16 * 16 + s3 / 4) :: (s3 % 4 * 64 + s4) :: r)
            | none => none
        | none => none
    | _, _ => none
  | _ => none

/-- `base64.b64decode` (default lenient mode: non-alphabet bytes are
discarded first, then the text is decoded in groups of four). -/
def base64Decode (l : Bytes) : Option Bytes := b64Groups (l.filter isB64Code)

/-- All bytes of a list are genuine byte values. -/
def ValidBytes (l : Bytes) : Prop := ∀ b ∈ l, b < 256

instance validBytesDecidable (l : Bytes) : Decidable (ValidBytes l) :=
  List.decidableBAll (fun b => b < 256) l

theorem b64CharDec_b64Char (n : Nat) (h : n < 64) : b64CharDec (b64Char n) = some n := by
  revert h; revert n; decide

theorem b64Char_isB64 (n : Nat) : isB64Code (b64Char n) = true := by
  unfold isB64Code b64Char b64CharDec
  split_ifs <;> simp_all <;> omega

theorem b64Char_ne_61 (n : Nat) : b64Char n ≠ 61 := by
  unfold b64Char; split_ifs <;> omega

theorem isB64_facts {x : Nat} (h : isB64Code x = true) :
    x ≠ 34 ∧ x ≠ 36 ∧ x ≠ 39 ∧ x ≠ 92 ∧ x < 256 := by
  unfold isB64Code b64CharDec at h
  split_ifs at h <;> simp_all <;> omega

theorem encode_isB64 (l : Bytes) : ∀ x ∈ base64Encode l, isB64Code x = true := by
  induction l using base64Encode.induct with
  | case1 => intro x hx; simp [base64Encode] at hx
  | case2 a =>
      intro x hx
      simp only [base64Encode, List.mem_cons, List.mem_singleton] at hx
      rcases hx with rfl | rfl | rfl | hx
      · exact b64Char_isB64 _
      · exact b64Char_isB64 _
      · rfl
      · simp at hx; subst hx; rfl
  | case3 a b =>
      intro x hx
      simp only [base64Encode, List.mem_cons, List.mem_singleton] at hx
      rcases hx with rfl | rfl | rfl | hx
      · exact b64Char_isB64 _
      · exact b64Char_isB64 _
      · exact b64Char_isB64 _
      · simp at hx; subst hx; rfl
  | case4 a b c rest ih =>
      intro x hx
      simp only [base64Encode, List.mem_cons] at hx
      rcases hx with rfl | rfl | rfl | rfl | hx
      · exact b64Char_isB64 _
      · exact b64Char_isB64 _
      · exact b64Char_isB64 _
      · exact b64Char_isB64 _
      · exact ih x hx

theorem encode_filter (l : Bytes) : (base64Encode l).filter isB64Code = base64Encode l :=
  List.filter_eq_self.mpr (encode_isB64 l)

theorem b64Groups_pad2 (a b : Nat) (s1 s2 : Nat)
    (h1 : b64CharDec a = some s1) (h2 : b64CharDec b = some s2) :
    b64Groups [a, b, 61, 61] = some [s1 * 4 + s2 / 16] := by
  simp [b64Groups, h1, h2]

theorem b64Groups_pad1 (a b c : Nat) (s1 s2 s3 : Nat)
    (h1 : b64CharDec a = some s1) (h2 : b64CharDec b = some s2)
    (h3 : b64CharDec c = some s3) (hc : c ≠ 61) :
    b64Groups [a, b, c, 61] = some [s1 * 4 + s2 / 16, s2 % 16 * 16 + s3 / 4] := by
  simp [b64Groups, h1, h2, h3, hc]

theorem b64Groups_quad (a b c d : Nat) (rest : Bytes) (s1 s2 s3 s4 : Nat)
    (h1 : b64CharDec a = some s1) (h2 : b64CharDec b = some s2)
    (h3 : b64CharDec c = some s3) (h4 : b64CharDec d = some s4)
    (hc : c ≠ 61) (hd : d ≠ 61) :
    b64Groups (a :: b :: c :: d :: rest) =
      (b64Groups rest).map
        (fun r => (s1 * 4 + s2 / 16) :: (s2 % 16 * 16 + s3 / 4) :: (s3 % 4 * 64 + s4) :: r) := by
  simp [b64Groups, h1, h2, h3, h4, hc, hd]

theorem b64Groups_encode (l : Bytes) (h : ValidBytes l) :
    b64Groups (base64Encode l) = some l := by
  induction l using base64Encode.induct with
  | case1 => rfl
  | case2 a =>
      have ha : a < 256 := h a (by simp)
      simp only [base64Encode]
      rw [b64Groups_pad2 _ _ _ _ (b64CharDec_b64Char (a / 4) (by omega))
        (b64CharDec_b64Char (a % 4 * 16) (by omega))]
      simp only [Option.some.injEq, List.cons.injEq, and_true]
      omega
  | case3 a b =>
      have ha : a < 256 := h a (by simp)
      have hb : b < 256 := h b (by simp)
      simp only [base64Encode]
      rw [b64Groups_pad1 _ _ _ _ _ _ (b64CharDec_b64Char (a / 4) (by omega))
        (b64CharDec_b64Char (a % 4 * 16 + b / 16) (by omega))
        (b64CharDec_b64Char (b % 16 * 4) (by omega)) (b64Char_ne_61 _)]
      simp only [Option.some.injEq, List.cons.injEq, and_true]
      constructor <;> omega
  | case4 a b c rest ih =>
      have ha : a < 256 := h a (by simp)
      have hb : b < 256 := h b (by simp)
      have hc : c < 256 := h c (by simp)
      have hrest : ValidBytes rest := fun x hx => h x (by simp [hx])
      simp only [base64Encode]
      rw [b64Groups_quad _ _ _ _ _ _ _ _ _ (b64CharDec_b64Char (a / 4) (by omega))
        (b64CharDec_b64Char (a % 4 * 16 + b / 16) (by omega))
        (b64CharDec_b64Char (b % 16 * 4 + c / 64) (by omega))
        (b64CharDec_b64Char (c % 64) (by omega)) (b64Char_ne_61 _) (b64Char_ne_61 _)]
      rw [ih hrest]
      simp only [Option.map_some', Option.some.injEq, List.cons.injEq, and_true]
      refine ⟨by omega, by omega, by omega⟩

/-- Decoding inverts encoding on genuine byte strings. -/
theorem base64_roundtrip (l : Bytes) (h : ValidBytes l) :
    base64Decode (base64Encode l) = some l := by
  unfold base64Decode
  rw [encode_filter, b64Groups_encode l h]

/-- Encoding is injective on genuine byte strings. -/
theorem base64Encode_inj {l m : Bytes} (hl : ValidBytes l) (hm : ValidBytes m)
    (h : base64Encode l = base64Encode m) : l = m := by
  have h1 := base64_roundtrip l hl
  have h2 := base64_roundtrip m hm
  rw [h] at h1
  rw [h1] at h2
  exact (Option.some.injEq _ _).mp h2

theorem base64Encode_length (l : Bytes) :
    (base64Encode l).length = 4 * ((l.length + 2) / 3) := by
  induction l using base64Encode.induct with
  | case1 => rfl
  | case2 a => simp [base64Encode]
  | case3 a b => simp [base64Encode]
  | case4 a b c rest ih =>
      simp only [base64Encode, List.length_cons, ih]
      omega

/-! ## Decimal rendering of non-negative integers (Python `str(int)` / JSON numbers) -/

def natToDecAux : Nat → Nat → Bytes
  | 0, _ => []
  | fuel + 1, n => if n < 10 then [48 + n] else natToDecAux fuel (n / 10) ++ [48 + n % 10]

/-- Decimal digits (ASCII codes) of `n`, most significant first. -/
def natToDec (n : Nat) : Bytes := natToDecAux (n + 1) n

theorem natToDecAux_stable : ∀ f1 f2 n, n < f1 → n < f2 → natToDecAux f1 n = natToDecAux f2 n := by
  intro f1
  induction f1 with
  | zero => intro f2 n h1; omega
  | succ f ih =>
      intro f2 n h1 h2
      match f2, h2 with
      | f2' + 1, _ =>
        simp only [natToDecAux]
        split
        · rfl
        · rw [ih f2' (n / 10) (by omega) (by omega)]

theorem natToDec_eq (n : Nat) :
    natToDec n = if n < 10 then [48 + n] else natToDec (n / 10) ++ [48 + n % 10] := by
  unfold natToDec
  rw [natToDecAux]
  split
  · rfl
  · rw [natToDecAux_stable n (n / 10 + 1) (n / 10) (by omega) (by omega)]

theorem natToDec_digits (n : Nat) : ∀ x ∈ natToDec n, 48 ≤ x ∧ x ≤ 57 := by
  induction n using Nat.strong_induction_on with
  | _ n ih =>
      rw [natToDec_eq]
      split
      · intro x hx; simp at hx; omega
      · intro x hx
        rcases List.mem_append.mp hx with h | h
        · exact ih (n / 10) (by omega) x h
        · simp at h; omega

theorem natToDec_ne_nil (n : Nat) : natToDec n ≠ [] := by
  rw [natToDec_eq]
  split <;> simp

theorem natToDec_fold (n : Nat) (a : Nat) :
    (natToDec n).foldl (fun acc d => acc * 10 + (d - 48)) a =
      a * 10 ^ (natToDec n).length + n := by
  induction n using Nat.strong_induction_on generalizing a with
  | _ n ih =>
      rw [natToDec_eq]
      split
      · simp only [List.foldl_cons, List.foldl_nil, List.length_singleton, pow_one]
        omega
      · rw [List.foldl_append, ih (n / 10) (by omega) a]
        simp only [List.foldl, List.length_append, List.length_singleton]
        rw [pow_succ]
        have h10 : 10 ≤ n := by omega
        have : n % 10 + 48 - 48 = n % 10 := by omega
        ring_nf
        omega

/-! ## The chunk records and their JSON serialization

`PHPEncryptor._encrypt_chunks` stores, per chunk, a Python dict with
the keys iv, nonce, data, tag and index, in that insertion order, whose
first four values are base64 *strings*; `_generate_decryptor` serializes the
list with `json.dumps` and `PHPDecryptor._decrypt_data` reads it back with
`json.loads`.  The record fields below hold those base64 strings as byte
strings; the serializer mirrors `json.dumps` (default separators, insertion
key order, no escapes arise because the values are base64 text), and the
parser accepts exactly that emitted shape. -/

structure ChunkRec where
  iv : Bytes
  nonce : Bytes
  data : Bytes
  tag : Bytes
  index : Nat
deriving DecidableEq

def ivKey : Bytes := [105, 118]
def nonceKey : Bytes := [110, 111, 110, 99, 101]
def dataKey : Bytes := [100, 97, 116, 97]
def tagKey : Bytes := [116, 97, 103]
def indexKey : Bytes := [105, 110, 100, 101, 120]

/-- A quoted key, colon, space, then the quoted value (34 is the double quote, 58 the colon, 32 the space). -/
def jsonStrField (key val : Bytes) : Bytes :=
  (34 :: key ++ [34, 58, 32]) ++ (34 :: val ++ [34])

/-- `json.dumps` of one chunk dict (123/125 are the braces, 44 the comma). -/
def dumpChunk (c : ChunkRec) : Bytes :=
  [123] ++ jsonStrField ivKey c.iv ++ [44, 32] ++ jsonStrField nonceKey c.nonce ++ [44, 32] ++
    jsonStrField dataKey c.data ++ [44, 32] ++ jsonStrField tagKey c.tag ++ [44, 32] ++
    (34 :: indexKey ++ [34, 58, 32]) ++ natToDec c.index ++ [125]

/-- The serialized chunks joined by comma-space, as the separator join does. -/
def joinChunks : List ChunkRec → Bytes
  | [] => []
  | [c] => dumpChunk c
  | c :: rest => dumpChunk c ++ [44, 32] ++ joinChunks rest

/-- `json.dumps` of the chunk list (91/93 are the brackets). -/
def dumpChunks (l : List ChunkRec) : Bytes := [91] ++ joinChunks l ++ [93]

def expectBytes : Bytes → Bytes → Option Bytes
  | [], s => some s
  | _ :: _, [] => none
  | p :: ps, c :: cs => if p = c then expectBytes ps cs else none

def parseQuotedVal (s : Bytes) : Option (Bytes × Bytes) :=
  match s with
  | 34 :: rest =>
    let v := rest.takeWhile (fun c => c != 34)
    match rest.drop v.length with
    | 34 :: r => some (v, r)
    | _ => none
  | _ => none

def parseKV (key : Bytes) (s : Bytes) : Option (Bytes × Bytes) :=
  match expectBytes (34 :: key ++ [34, 58, 32]) s with
  | some r1 => parseQuotedVal r1
  | none => none

def parseNat (s : Bytes) : Option (Nat × Bytes) :=
  let ds := s.takeWhile (fun c => 48 ≤ c && c ≤ 57)
  if ds = [] then none
  else some (ds.foldl (fun acc d => acc * 10 + (d - 48)) 0, s.drop ds.length)

def parseChunkObj (s : Bytes) : Option (ChunkRec × Bytes) :=
  match expectBytes [123] s with
  | none => none
  | some r0 =>
  match parseKV ivKey r0 with
  | none => none
  | some (iv, r1) =>
  match expectBytes [44, 32] r1 with
  | none => none
  | some r2 =>
  match parseKV nonceKey r2 with
  | none => none
  | some (nonce, r3) =>
  match expectBytes [44, 32] r3 with
  | none => none
  | some r4 =>
  match parseKV dataKey r4 with
  | none => none
  | some (dat, r5) =>
  match expectBytes [44, 32] r5 with
  | none => none
  | some r6 =>
  match parseKV tagKey r6 with
  | none => none
  | some (tg, r7) =>
  match expectBytes [44, 32] r7 with
  | none => none
  | some r8 =>
  match expectBytes (34 :: indexKey ++ [34, 58, 32]) r8 with
  | none => none
  | some r9 =>
  match parseNat r9 with
  | none => none
  | some (idx, r10) =>
  match expectBytes [125] r10 with
  | none => none
  | some r11 => some (⟨iv, nonce, dat, tg, idx⟩, r11)

def parseChunkList : Nat → Bytes → Option (List ChunkRec × Bytes)
  | 0, _ => none
  | fuel + 1, s =>
    match parseChunkObj s with
    | none => none
    | some (c, rest) =>
      match rest with
      | 93 :: r => some ([c], r)
      | 44 :: 32 :: r =>
        match parseChunkList fuel r with
        | some (cs, r2) => some (c :: cs, r2)
        | none => none
      | _ => none

/-- `json.loads` restricted to the serialized chunk-list shape. -/
def jsonLoadsChunks (s : Bytes) : Option (List ChunkRec) :=
  match s with
  | 91 :: rest =>
    if rest = [93] then some []
    else
      match parseChunkList rest.length rest with
      | some (cs, r) => if r = [] then some cs else none
      | none => none
  | _ => none

/-- All bytes of a field lie in the base64 alphabet (true of everything
the encryptor stores in a chunk record). -/
def fieldOK (b : Bytes) : Prop := ∀ x ∈ b, isB64Code x = true

instance fieldOKDecidable (b : Bytes) : Decidable (fieldOK b) :=
  List.decidableBAll (fun x => isB64Code x = true) b

def chunkOK (c : ChunkRec) : Prop :=
  fieldOK c.iv ∧ fieldOK c.nonce ∧ fieldOK c.data ∧ fieldOK c.tag

theorem expectBytes_append (p r : Bytes) : expectBytes p (p ++ r) = some r := by
  induction p with
  | nil => rfl
  | cons x xs ih => simp [expectBytes, ih]

theorem takeWhile_append_all {p : Nat → Bool} (v w : Bytes) (hv : ∀ x ∈ v, p x = true)
    (hw : ∀ c, w.head? = some c → p c = false) :
    (v ++ w).takeWhile p = v := by
  induction v with
  | nil =>
      cases w with
      | nil => rfl
      | cons c cs => simp [List.takeWhile, hw c rfl]
  | cons x xs ih =>
      simp only [List.cons_append, List.takeWhile]
      rw [hv x (by simp)]
      simp [ih (fun y hy => hv y (by simp [hy]))]

theorem parseQuotedVal_rt (v r : Bytes) (hv : ∀ x ∈ v, x ≠ 34) :
    parseQuotedVal ((34 :: v ++ [34]) ++ r) = some (v, r) := by
  have harg : (34 :: v ++ [34]) ++ r = 34 :: (v ++ 34 :: r) := by simp
  rw [harg]
  have hval : (v ++ 34 :: r).takeWhile (fun c => c != 34) = v := by
    apply takeWhile_append_all
    · intro x hx; simpa using hv x hx
    · intro c hc; simp at hc; subst hc; rfl
  simp only [parseQuotedVal]
  rw [hval, List.drop_left]

theorem parseKV_rt (key v : Bytes) (hv : ∀ x ∈ v, x ≠ 34) (r : Bytes) :
    parseKV key (jsonStrField key v ++ r) = some (v, r) := by
  unfold parseKV jsonStrField
  rw [List.append_assoc, expectBytes_append]
  have := parseQuotedVal_rt v r hv
  simpa using this

theorem parseNat_rt (n : Nat) (r : Bytes) :
    parseNat (natToDec n ++ 125 :: r) = some (n, 125 :: r) := by
  have hds : (natToDec n ++ 125 :: r).takeWhile (fun c => 48 ≤ c && c ≤ 57) = natToDec n := by
    apply takeWhile_append_all
    · intro x hx
      have := natToDec_digits n x hx
      simp only [Bool.and_eq_true, decide_eq_true_eq]
      omega
    · intro c hc; simp at hc; subst hc; rfl
  simp only [parseNat]
  rw [hds]
  rw [if_neg (natToDec_ne_nil n), natToDec_fold n 0, List.drop_left]
  simp

theorem fieldOK_ne34 {b : Bytes} (h : fieldOK b) : ∀ x ∈ b, x ≠ 34 :=
  fun x hx => (isB64_facts (h x hx)).1

theorem parseChunkObj_rt (c : ChunkRec) (hc : chunkOK c) (r : Bytes) :
    parseChunkObj (dumpChunk c ++ r) = some (c, r) := by
  obtain ⟨hiv, hn, hd, ht⟩ := hc
  have harg : dumpChunk c ++ r =
      [123] ++ (jsonStrField ivKey c.iv ++ ([44, 32] ++ (jsonStrField nonceKey c.nonce ++
        ([44, 32] ++ (jsonStrField dataKey c.data ++ ([44, 32] ++ (jsonStrField tagKey c.tag ++
          ([44, 32] ++ ((34 :: indexKey ++ [34, 58, 32]) ++
            (natToDec c.index ++ (125 :: r))))))))))) := by
    simp [dumpChunk, List.append_assoc]
  have hclose : ∀ s : Bytes, expectBytes [125] (125 :: s) = some s := by
    intro s; simp [expectBytes]
  rw [harg]
  simp only [parseChunkObj, expectBytes_append, parseKV_rt ivKey c.iv (fieldOK_ne34 hiv),
    parseKV_rt nonceKey c.nonce (fieldOK_ne34 hn), parseKV_rt dataKey c.data (fieldOK_ne34 hd),
    parseKV_rt tagKey c.tag (fieldOK_ne34 ht), parseNat_rt, hclose]

theorem dumpChunk_pos (c : ChunkRec) : 0 < (dumpChunk c).length := by
  simp [dumpChunk]

theorem joinChunks_len : ∀ l : List ChunkRec, l.length ≤ (joinChunks l).length := by
  intro l
  induction l with
  | nil => simp
  | cons c cs ih =>
      cases cs with
      | nil => simpa using dumpChunk_pos c
      | cons c2 cs2 =>
          simp only [joinChunks, List.length_append, List.length_cons]
          have := dumpChunk_pos c
          simp only [List.length_cons] at ih ⊢
          omega

theorem parseChunkList_rt : ∀ (l : List ChunkRec) (fuel : Nat) (r : Bytes),
    l ≠ [] → (∀ c ∈ l, chunkOK c) → l.length ≤ fuel →
    parseChunkList fuel (joinChunks l ++ 93 :: r) = some (l, r) := by
  intro l
  induction l with
  | nil => intro fuel r hne; exact absurd rfl hne
  | cons c cs ih =>
      intro fuel r _ hok hf
      obtain ⟨fuel', rfl⟩ : ∃ f, fuel = f + 1 := by
        refine ⟨fuel - 1, ?_⟩
        simp only [List.length_cons] at hf
        omega
      cases cs with
      | nil =>
          simp only [joinChunks, parseChunkList,
            parseChunkObj_rt c (hok c (by simp)) (93 :: r)]
      | cons c2 cs2 =>
          have harg : joinChunks (c :: c2 :: cs2) ++ 93 :: r =
              dumpChunk c ++ (44 :: 32 :: (joinChunks (c2 :: cs2) ++ 93 :: r)) := by
            simp [joinChunks, List.append_assoc]
          rw [harg]
          simp only [parseChunkList, parseChunkObj_rt c (hok c (by simp))]
          rw [ih fuel' r (by simp) (fun x hx => hok x (by simp [List.mem_cons] at hx ⊢; tauto))
            (by simp only [List.length_cons] at hf ⊢; omega)]

theorem jsonLoadsChunks_dump (l : List ChunkRec) (hok : ∀ c ∈ l, chunkOK c) :
    jsonLoadsChunks (dumpChunks l) = some l := by
  cases l with
  | nil => rfl
  | cons c cs =>
      have harg : dumpChunks (c :: cs) = 91 :: (joinChunks (c :: cs) ++ 93 :: []) := by
        simp [dumpChunks]
      rw [harg]
      simp only [jsonLoadsChunks]
      have hne : joinChunks (c :: cs) ++ 93 :: [] ≠ [93] := by
        intro h
        have h1 := congrArg List.length h
        simp only [List.length_append, List.length_cons, List.length_nil] at h1
        have h2 := joinChunks_len (c :: cs)
        simp only [List.length_cons] at h2
        omega
      rw [if_neg hne]
      have hfuel : (c :: cs).length ≤ (joinChunks (c :: cs) ++ 93 :: []).length := by
        have h2 := joinChunks_len (c :: cs)
        simp only [List.length_cons] at h2
        simp only [List.length_append, List.length_cons, List.length_nil]
        omega
      rw [parseChunkList_rt (c :: cs) _ [] (by simp) hok hfuel]
      rfl

/-! ## Field extraction from the generated stub text

`PHPDecryptor._extract_decrypt_info` locates each embedded field with
`re.search` over the artifact text, using the pattern: a literal marker
(for instance  private dollar fileKey space equals space quote ), then a
nonempty captured run of non-quote characters, then quote semicolon.
`scanExtract` is that search: it tries every start position from the left
and returns the first successful capture. -/

def startsWith : Bytes → Bytes → Bool
  | [], _ => true
  | _ :: _, [] => false
  | p :: ps, c :: cs => p == c && startsWith ps cs

def scanExtract (m : Bytes) : Bytes → Option Bytes
  | [] => none
  | c :: rest =>
    if startsWith m (c :: rest) then
      let after := (c :: rest).drop m.length
      let cap := after.takeWhile (fun x => x != 39)
      if !cap.isEmpty && startsWith [39, 59] (after.drop cap.length) then some cap
      else scanExtract m rest
    else scanExtract m rest

/-- ASCII of the fileKey field marker (the literal part of the extraction pattern). -/
def markFileKey : Bytes :=
  [112, 114, 105, 118, 97, 116, 101, 32, 36, 102, 105, 108, 101, 75, 101, 121, 32, 61, 32, 39]

/-- ASCII of the salt field marker. -/
def markSalt : Bytes :=
  [112, 114, 105, 118, 97, 116, 101, 32, 36, 115, 97, 108, 116, 32, 61, 32, 39]

/-- ASCII of the integrityHash field marker. -/
def markIntegrity : Bytes :=
  [112, 114, 105, 118, 97, 116, 101, 32, 36, 105, 110, 116, 101, 103, 114, 105, 116, 121, 72, 97,
   115, 104, 32, 61, 32, 39]

/-- ASCII of the chunks field marker. -/
def markChunks : Bytes :=
  [112, 114, 105, 118, 97, 116, 101, 32, 36, 99, 104, 117, 110, 107, 115, 32, 61, 32, 39]

/-- The stub text before the fileKey marker: php open tag, the class line, and the indentation of the first field line. -/
def stubHead : Bytes :=
  [60, 63, 112, 104, 112, 10, 99, 108, 97, 115, 115, 32, 80, 72, 80, 68, 101, 99, 114, 121, 112,
   116, 111, 114, 32, 123, 10, 32, 32, 32, 32]

/-- Between two field values: closing quote, semicolon, newline, indentation. -/
def sepLine : Bytes :=
  [39, 59, 10, 32, 32, 32, 32]

set_option maxHeartbeats 2000000 in
/-- The rest of the generated PHP stub after the chunks value (UTF-8 bytes): the closing of the chunks line followed by the constructor, environment check, chunk decryption, integrity verification and execution methods of the generated class. -/
def stubTail : Bytes :=
  [39, 59, 10, 10, 32, 32, 32, 32, 112, 117, 98, 108, 105, 99, 32, 102, 117, 110, 99, 116, 105,
   111, 110, 32, 95, 95, 99, 111, 110, 115, 116, 114, 117, 99, 116, 40, 41, 32, 123, 10, 32, 32,
   32, 32, 32, 32, 32, 32, 105, 102, 32, 40, 33, 36, 116, 104, 105, 115, 45, 62, 118, 97, 108,
   105, 100, 97, 116, 101, 69, 110, 118, 105, 114, 111, 110, 109, 101, 110, 116, 40, 41, 41, 32,
   123, 10, 32, 32, 32, 32, 32, 32, 32, 32, 32, 32, 32, 32, 100, 105, 101, 40, 39, 83, 101, 99,
   117, 114, 105, 116, 121, 32, 99, 104, 101, 99, 107, 32, 102, 97, 105, 108, 101, 100, 39, 41,
   59, 10, 32, 32, 32, 32, 32, 32, 32, 32, 125, 10, 10, 32, 32, 32, 32, 32, 32, 32, 32, 36, 116,
   104, 105, 115, 45, 62, 101, 120, 101, 99, 117, 116, 101, 40, 41, 59, 10, 32, 32, 32, 32, 125,
   10, 10, 32, 32, 32, 32, 112, 114, 105, 118, 97, 116, 101, 32, 102, 117, 110, 99, 116, 105, 111,
   110, 32, 118, 97, 108, 105, 100, 97, 116, 101, 69, 110, 118, 105, 114, 111, 110, 109, 101, 110,
   116, 40, 41, 32, 123, 10, 32, 32, 32, 32, 32, 32, 32, 32, 105, 102, 32, 40, 118, 101, 114, 115,
   105, 111, 110, 95, 99, 111, 109, 112, 97, 114, 101, 40, 80, 72, 80, 95, 86, 69, 82, 83, 73, 79,
   78, 44, 32, 39, 55, 46, 52, 46, 48, 39, 44, 32, 39, 60, 39, 41, 41, 32, 123, 10, 32, 32, 32,
   32, 32, 32, 32, 32, 32, 32, 32, 32, 114, 101, 116, 117, 114, 110, 32, 102, 97, 108, 115, 101,
   59, 10, 32, 32, 32, 32, 32, 32, 32, 32, 125, 10, 10, 32, 32, 32, 32, 32, 32, 32, 32, 105, 102,
   32, 40, 33, 101, 120, 116, 101, 110, 115, 105, 111, 110, 95, 108, 111, 97, 100, 101, 100, 40,
   39, 111, 112, 101, 110, 115, 115, 108, 39, 41, 41, 32, 123, 10, 32, 32, 32, 32, 32, 32, 32, 32,
   32, 32, 32, 32, 114, 101, 116, 117, 114, 110, 32, 102, 97, 108, 115, 101, 59, 10, 32, 32, 32,
   32, 32, 32, 32, 32, 125, 10, 10, 32, 32, 32, 32, 32, 32, 32, 32, 114, 101, 116, 117, 114, 110,
   32, 116, 114, 117, 101, 59, 10, 32, 32, 32, 32, 125, 10, 10, 32, 32, 32, 32, 112, 114, 105,
   118, 97, 116, 101, 32, 102, 117, 110, 99, 116, 105, 111, 110, 32, 100, 101, 99, 114, 121, 112,
   116, 67, 104, 117, 110, 107, 115, 40, 41, 32, 123, 10, 32, 32, 32, 32, 32, 32, 32, 32, 116,
   114, 121, 32, 123, 10, 32, 32, 32, 32, 32, 32, 32, 32, 32, 32, 32, 32, 36, 102, 105, 108, 101,
   75, 101, 121, 32, 61, 32, 98, 97, 115, 101, 54, 52, 95, 100, 101, 99, 111, 100, 101, 40, 36,
   116, 104, 105, 115, 45, 62, 102, 105, 108, 101, 75, 101, 121, 41, 59, 10, 32, 32, 32, 32, 32,
   32, 32, 32, 32, 32, 32, 32, 36, 99, 104, 117, 110, 107, 115, 32, 61, 32, 106, 115, 111, 110,
   95, 100, 101, 99, 111, 100, 101, 40, 98, 97, 115, 101, 54, 52, 95, 100, 101, 99, 111, 100, 101,
   40, 36, 116, 104, 105, 115, 45, 62, 99, 104, 117, 110, 107, 115, 41, 44, 32, 116, 114, 117,
   101, 41, 59, 10, 10, 32, 32, 32, 32, 32, 32, 32, 32, 32, 32, 32, 32, 36, 100, 101, 99, 114,
   121, 112, 116, 101, 100, 68, 97, 116, 97, 32, 61, 32, 39, 39, 59, 10, 10, 32, 32, 32, 32, 32,
   32, 32, 32, 32, 32, 32, 32, 102, 111, 114, 101, 97, 99, 104, 32, 40, 36, 99, 104, 117, 110,
   107, 115, 32, 97, 115, 32, 36, 99, 104, 117, 110, 107, 41, 32, 123, 10, 32, 32, 32, 32, 32, 32,
   32, 32, 32, 32, 32, 32, 32, 32, 32, 32, 36, 105, 118, 32, 61, 32, 98, 97, 115, 101, 54, 52, 95,
   100, 101, 99, 111, 100, 101, 40, 36, 99, 104, 117, 110, 107, 91, 39, 105, 118, 39, 93, 41, 59,
   10, 32, 32, 32, 32, 32, 32, 32, 32, 32, 32, 32, 32, 32, 32, 32, 32, 36, 110, 111, 110, 99, 101,
   32, 61, 32, 98, 97, 115, 101, 54, 52, 95, 100, 101, 99, 111, 100, 101, 40, 36, 99, 104, 117,
   110, 107, 91, 39, 110, 111, 110, 99, 101, 39, 93, 41, 59, 10, 32, 32, 32, 32, 32, 32, 32, 32,
   32, 32, 32, 32, 32, 32, 32, 32, 36, 100, 97, 116, 97, 32, 61, 32, 98, 97, 115, 101, 54, 52, 95,
   100, 101, 99, 111, 100, 101, 40, 36, 99, 104, 117, 110, 107, 91, 39, 100, 97, 116, 97, 39, 93,
   41, 59, 10, 32, 32, 32, 32, 32, 32, 32, 32, 32, 32, 32, 32, 32, 32, 32, 32, 36, 116, 97, 103,
   32, 61, 32, 98, 97, 115, 101, 54, 52, 95, 100, 101, 99, 111, 100, 101, 40, 36, 99, 104, 117,
   110, 107, 91, 39, 116, 97, 103, 39, 93, 41, 59, 10, 10, 32, 32, 32, 32, 32, 32, 32, 32, 32, 32,
   32, 32, 32, 32, 32, 32, 36, 99, 105, 112, 104, 101, 114, 32, 61, 32, 111, 112, 101, 110, 115,
   115, 108, 95, 100, 101, 99, 114, 121, 112, 116, 40, 10, 32, 32, 32, 32, 32, 32, 32, 32, 32, 32,
   32, 32, 32, 32, 32, 32, 32, 32, 32, 32, 36, 100, 97, 116, 97, 44, 10, 32, 32, 32, 32, 32, 32,
   32, 32, 32, 32, 32, 32, 32, 32, 32, 32, 32, 32, 32, 32, 39, 97, 101, 115, 45, 50, 53, 54, 45,
   103, 99, 109, 39, 44, 10, 32, 32, 32, 32, 32, 32, 32, 32, 32, 32, 32, 32, 32, 32, 32, 32, 32,
   32, 32, 32, 36, 102, 105, 108, 101, 75, 101, 121, 44, 10, 32, 32, 32, 32, 32, 32, 32, 32, 32,
   32, 32, 32, 32, 32, 32, 32, 32, 32, 32, 32, 79, 80, 69, 78, 83, 83, 76, 95, 82, 65, 87, 95, 68,
   65, 84, 65, 44, 10, 32, 32, 32, 32, 32, 32, 32, 32, 32, 32, 32, 32, 32, 32, 32, 32, 32, 32, 32,
   32, 36, 110, 111, 110, 99, 101, 44, 10, 32, 32, 32, 32, 32, 32, 32, 32, 32, 32, 32, 32, 32, 32,
   32, 32, 32, 32, 32, 32, 36, 116, 97, 103, 44, 10, 32, 32, 32, 32, 32, 32, 32, 32, 32, 32, 32,
   32, 32, 32, 32, 32, 32, 32, 32, 32, 39, 39, 10, 32, 32, 32, 32, 32, 32, 32, 32, 32, 32, 32, 32,
   32, 32, 32, 32, 41, 59, 10, 10, 32, 32, 32, 32, 32, 32, 32, 32, 32, 32, 32, 32, 32, 32, 32, 32,
   105, 102, 32, 40, 36, 99, 105, 112, 104, 101, 114, 32, 61, 61, 61, 32, 102, 97, 108, 115, 101,
   41, 32, 123, 10, 32, 32, 32, 32, 32, 32, 32, 32, 32, 32, 32, 32, 32, 32, 32, 32, 32, 32, 32,
   32, 116, 104, 114, 111, 119, 32, 110, 101, 119, 32, 69, 120, 99, 101, 112, 116, 105, 111, 110,
   40, 39, 68, 101, 99, 114, 121, 112, 116, 105, 111, 110, 32, 102, 97, 105, 108, 101, 100, 39,
   41, 59, 10, 32, 32, 32, 32, 32, 32, 32, 32, 32, 32, 32, 32, 32, 32, 32, 32, 125, 10, 10, 32,
   32, 32, 32, 32, 32, 32, 32, 32, 32, 32, 32, 32, 32, 32, 32, 36, 100, 101, 99, 114, 121, 112,
   116, 101, 100, 68, 97, 116, 97, 32, 46, 61, 32, 36, 99, 105, 112, 104, 101, 114, 59, 10, 32,
   32, 32, 32, 32, 32, 32, 32, 32, 32, 32, 32, 125, 10, 10, 32, 32, 32, 32, 32, 32, 32, 32, 32,
   32, 32, 32, 105, 102, 32, 40, 33, 36, 116, 104, 105, 115, 45, 62, 118, 101, 114, 105, 102, 121,
   73, 110, 116, 101, 103, 114, 105, 116, 121, 40, 36, 100, 101, 99, 114, 121, 112, 116, 101, 100,
   68, 97, 116, 97, 41, 41, 32, 123, 10, 32, 32, 32, 32, 32, 32, 32, 32, 32, 32, 32, 32, 32, 32,
   32, 32, 116, 104, 114, 111, 119, 32, 110, 101, 119, 32, 69, 120, 99, 101, 112, 116, 105, 111,
   110, 40, 39, 73, 110, 116, 101, 103, 114, 105, 116, 121, 32, 99, 104, 101, 99, 107, 32, 102,
   97, 105, 108, 101, 100, 39, 41, 59, 10, 32, 32, 32, 32, 32, 32, 32, 32, 32, 32, 32, 32, 125,
   10, 10, 32, 32, 32, 32, 32, 32, 32, 32, 32, 32, 32, 32, 114, 101, 116, 117, 114, 110, 32, 36,
   100, 101, 99, 114, 121, 112, 116, 101, 100, 68, 97, 116, 97, 59, 10, 10, 32, 32, 32, 32, 32,
   32, 32, 32, 125, 32, 99, 97, 116, 99, 104, 32, 40, 69, 120, 99, 101, 112, 116, 105, 111, 110,
   32, 36, 101, 41, 32, 123, 10, 32, 32, 32, 32, 32, 32, 32, 32, 32, 32, 32, 32, 100, 105, 101,
   40, 39, 68, 101, 99, 114, 121, 112, 116, 105, 111, 110, 32, 101, 114, 114, 111, 114, 58, 32,
   39, 32, 46, 32, 36, 101, 45, 62, 103, 101, 116, 77, 101, 115, 115, 97, 103, 101, 40, 41, 41,
   59, 10, 32, 32, 32, 32, 32, 32, 32, 32, 125, 10, 32, 32, 32, 32, 125, 10, 10, 32, 32, 32, 32,
   112, 114, 105, 118, 97, 116, 101, 32, 102, 117, 110, 99, 116, 105, 111, 110, 32, 118, 101, 114,
   105, 102, 121, 73, 110, 116, 101, 103, 114, 105, 116, 121, 40, 36, 100, 97, 116, 97, 41, 32,
   123, 10, 32, 32, 32, 32, 32, 32, 32, 32, 36, 102, 105, 108, 101, 75, 101, 121, 32, 61, 32, 98,
   97, 115, 101, 54, 52, 95, 100, 101, 99, 111, 100, 101, 40, 36, 116, 104, 105, 115, 45, 62, 102,
   105, 108, 101, 75, 101, 121, 41, 59, 10, 32, 32, 32, 32, 32, 32, 32, 32, 36, 99, 104, 117, 110,
   107, 115, 32, 61, 32, 106, 115, 111, 110, 95, 100, 101, 99, 111, 100, 101, 40, 98, 97, 115,
   101, 54, 52, 95, 100, 101, 99, 111, 100, 101, 40, 36, 116, 104, 105, 115, 45, 62, 99, 104, 117,
   110, 107, 115, 41, 44, 32, 116, 114, 117, 101, 41, 59, 10, 10, 32, 32, 32, 32, 32, 32, 32, 32,
   36, 99, 104, 117, 110, 107, 115, 68, 97, 116, 97, 32, 61, 32, 39, 39, 59, 10, 32, 32, 32, 32,
   32, 32, 32, 32, 102, 111, 114, 101, 97, 99, 104, 32, 40, 36, 99, 104, 117, 110, 107, 115, 32,
   97, 115, 32, 36, 99, 104, 117, 110, 107, 41, 32, 123, 10, 32, 32, 32, 32, 32, 32, 32, 32, 32,
   32, 32, 32, 36, 99, 104, 117, 110, 107, 115, 68, 97, 116, 97, 32, 46, 61, 32, 36, 99, 104, 117,
   110, 107, 91, 39, 110, 111, 110, 99, 101, 39, 93, 32, 46, 32, 36, 99, 104, 117, 110, 107, 91,
   39, 100, 97, 116, 97, 39, 93, 32, 46, 32, 36, 99, 104, 117, 110, 107, 91, 39, 116, 97, 103, 39,
   93, 59, 10, 32, 32, 32, 32, 32, 32, 32, 32, 125, 10, 10, 32, 32, 32, 32, 32, 32, 32, 32, 36,
   99, 111, 109, 112, 117, 116, 101, 100, 72, 97, 115, 104, 32, 61, 32, 104, 97, 115, 104, 95,
   104, 109, 97, 99, 40, 39, 115, 104, 97, 50, 53, 54, 39, 44, 32, 36, 99, 104, 117, 110, 107,
   115, 68, 97, 116, 97, 44, 32, 36, 102, 105, 108, 101, 75, 101, 121, 44, 32, 116, 114, 117, 101,
   41, 59, 10, 32, 32, 32, 32, 32, 32, 32, 32, 36, 101, 120, 112, 101, 99, 116, 101, 100, 72, 97,
   115, 104, 32, 61, 32, 98, 97, 115, 101, 54, 52, 95, 100, 101, 99, 111, 100, 101, 40, 36, 116,
   104, 105, 115, 45, 62, 105, 110, 116, 101, 103, 114, 105, 116, 121, 72, 97, 115, 104, 41, 59,
   10, 10, 32, 32, 32, 32, 32, 32, 32, 32, 114, 101, 116, 117, 114, 110, 32, 104, 97, 115, 104,
   95, 101, 113, 117, 97, 108, 115, 40, 36, 99, 111, 109, 112, 117, 116, 101, 100, 72, 97, 115,
   104, 44, 32, 36, 101, 120, 112, 101, 99, 116, 101, 100, 72, 97, 115, 104, 41, 59, 10, 32, 32,
   32, 32, 125, 10, 10, 32, 32, 32, 32, 112, 114, 105, 118, 97, 116, 101, 32, 102, 117, 110, 99,
   116, 105, 111, 110, 32, 101, 120, 101, 99, 117, 116, 101, 40, 41, 32, 123, 10, 32, 32, 32, 32,
   32, 32, 32, 32, 36, 99, 111, 100, 101, 32, 61, 32, 36, 116, 104, 105, 115, 45, 62, 100, 101,
   99, 114, 121, 112, 116, 67, 104, 117, 110, 107, 115, 40, 41, 59, 10, 10, 32, 32, 32, 32, 32,
   32, 32, 32, 47, 47, 32, 229, 136, 155, 229, 187, 186, 228, 184, 128, 228, 184, 170, 228, 184,
   180, 230, 151, 182, 231, 154, 132, 229, 133, 168, 229, 177, 128, 229, 143, 152, 233, 135, 143,
   229, 174, 185, 229, 153, 168, 10, 32, 32, 32, 32, 32, 32, 32, 32, 36, 103, 108, 111, 98, 97,
   108, 95, 118, 97, 114, 115, 32, 61, 32, 97, 114, 114, 97, 121, 40, 41, 59, 10, 10, 32, 32, 32,
   32, 32, 32, 32, 32, 47, 47, 32, 229, 156, 168, 230, 150, 185, 230, 179, 149, 228, 189, 156,
   231, 148, 168, 229, 159, 159, 229, 134, 133, 230, 137, 167, 232, 161, 140, 228, 187, 163, 231,
   160, 129, 239, 188, 140, 228, 189, 134, 230, 141, 149, 232, 142, 183, 230, 137, 128, 230, 156,
   137, 229, 174, 154, 228, 185, 137, 231, 154, 132, 229, 143, 152, 233, 135, 143, 10, 32, 32, 32,
   32, 32, 32, 32, 32, 36, 99, 97, 112, 116, 117, 114, 101, 95, 118, 97, 114, 115, 32, 61, 32,
   102, 117, 110, 99, 116, 105, 111, 110, 40, 36, 99, 111, 100, 101, 41, 32, 117, 115, 101, 32,
   40, 38, 36, 103, 108, 111, 98, 97, 108, 95, 118, 97, 114, 115, 41, 32, 123, 10, 32, 32, 32, 32,
   32, 32, 32, 32, 32, 32, 32, 32, 47, 47, 32, 229, 156, 168, 232, 191, 153, 228, 184, 170, 233,
   151, 173, 229, 140, 133, 228, 184, 173, 230, 137, 167, 232, 161, 140, 229, 142, 159, 229, 167,
   139, 228, 187, 163, 231, 160, 129, 10, 32, 32, 32, 32, 32, 32, 32, 32, 32, 32, 32, 32, 101,
   118, 97, 108, 40, 39, 63, 62, 39, 32, 46, 32, 36, 99, 111, 100, 101, 41, 59, 10, 10, 32, 32,
   32, 32, 32, 32, 32, 32, 32, 32, 32, 32, 47, 47, 32, 230, 141, 149, 232, 142, 183, 230, 137,
   128, 230, 156, 137, 229, 189, 147, 229, 137, 141, 228, 189, 156, 231, 148, 168, 229, 159, 159,
   231, 154, 132, 229, 143, 152, 233, 135, 143, 239, 188, 136, 233, 153, 164, 228, 186, 134, 229,
   134, 133, 231, 189, 174, 229, 143, 152, 233, 135, 143, 239, 188, 137, 10, 32, 32, 32, 32, 32,
   32, 32, 32, 32, 32, 32, 32, 36, 100, 101, 102, 105, 110, 101, 100, 95, 118, 97, 114, 115, 32,
   61, 32, 103, 101, 116, 95, 100, 101, 102, 105, 110, 101, 100, 95, 118, 97, 114, 115, 40, 41,
   59, 10, 32, 32, 32, 32, 32, 32, 32, 32, 32, 32, 32, 32, 36, 101, 120, 99, 108, 117, 100, 101,
   95, 107, 101, 121, 115, 32, 61, 32, 91, 39, 99, 111, 100, 101, 39, 44, 32, 39, 103, 108, 111,
   98, 97, 108, 95, 118, 97, 114, 115, 39, 44, 32, 39, 99, 97, 112, 116, 117, 114, 101, 95, 118,
   97, 114, 115, 39, 44, 32, 39, 116, 104, 105, 115, 39, 93, 59, 10, 10, 32, 32, 32, 32, 32, 32,
   32, 32, 32, 32, 32, 32, 102, 111, 114, 101, 97, 99, 104, 32, 40, 36, 100, 101, 102, 105, 110,
   101, 100, 95, 118, 97, 114, 115, 32, 97, 115, 32, 36, 110, 97, 109, 101, 32, 61, 62, 32, 36,
   118, 97, 108, 117, 101, 41, 32, 123, 10, 32, 32, 32, 32, 32, 32, 32, 32, 32, 32, 32, 32, 32,
   32, 32, 32, 105, 102, 32, 40, 33, 105, 110, 95, 97, 114, 114, 97, 121, 40, 36, 110, 97, 109,
   101, 44, 32, 36, 101, 120, 99, 108, 117, 100, 101, 95, 107, 101, 121, 115, 41, 32, 38, 38, 32,
   36, 110, 97, 109, 101, 32, 33, 61, 61, 32, 39, 71, 76, 79, 66, 65, 76, 83, 39, 32, 38, 38, 32,
   115, 116, 114, 112, 111, 115, 40, 36, 110, 97, 109, 101, 44, 32, 39, 95, 39, 41, 32, 33, 61,
   61, 32, 48, 41, 32, 123, 10, 32, 32, 32, 32, 32, 32, 32, 32, 32, 32, 32, 32, 32, 32, 32, 32,
   32, 32, 32, 32, 36, 103, 108, 111, 98, 97, 108, 95, 118, 97, 114, 115, 91, 36, 110, 97, 109,
   101, 93, 32, 61, 32, 36, 118, 97, 108, 117, 101, 59, 10, 32, 32, 32, 32, 32, 32, 32, 32, 32,
   32, 32, 32, 32, 32, 32, 32, 125, 10, 32, 32, 32, 32, 32, 32, 32, 32, 32, 32, 32, 32, 125, 10,
   32, 32, 32, 32, 32, 32, 32, 32, 125, 59, 10, 10, 32, 32, 32, 32, 32, 32, 32, 32, 47, 47, 32,
   230, 137, 167, 232, 161, 140, 228, 187, 163, 231, 160, 129, 229, 185, 182, 230, 141, 149, 232,
   142, 183, 229, 143, 152, 233, 135, 143, 10, 32, 32, 32, 32, 32, 32, 32, 32, 36, 99, 97, 112,
   116, 117, 114, 101, 95, 118, 97, 114, 115, 40, 36, 99, 111, 100, 101, 41, 59, 10, 10, 32, 32,
   32, 32, 32, 32, 32, 32, 47, 47, 32, 229, 176, 134, 230, 141, 149, 232, 142, 183, 231, 154, 132,
   229, 143, 152, 233, 135, 143, 230, 179, 168, 229, 133, 165, 229, 136, 176, 229, 133, 168, 229,
   177, 128, 228, 189, 156, 231, 148, 168, 229, 159, 159, 10, 32, 32, 32, 32, 32, 32, 32, 32, 102,
   111, 114, 101, 97, 99, 104, 32, 40, 36, 103, 108, 111, 98, 97, 108, 95, 118, 97, 114, 115, 32,
   97, 115, 32, 36, 110, 97, 109, 101, 32, 61, 62, 32, 36, 118, 97, 108, 117, 101, 41, 32, 123,
   10, 32, 32, 32, 32, 32, 32, 32, 32, 32, 32, 32, 32, 36, 71, 76, 79, 66, 65, 76, 83, 91, 36,
   110, 97, 109, 101, 93, 32, 61, 32, 36, 118, 97, 108, 117, 101, 59, 10, 32, 32, 32, 32, 32, 32,
   32, 32, 125, 10, 10, 32, 32, 10, 32, 32, 32, 32, 32, 32, 32, 32, 117, 110, 115, 101, 116, 40,
   36, 99, 111, 100, 101, 44, 32, 36, 103, 108, 111, 98, 97, 108, 95, 118, 97, 114, 115, 44, 32,
   36, 99, 97, 112, 116, 117, 114, 101, 95, 118, 97, 114, 115, 41, 59, 10, 32, 32, 32, 32, 125,
   10, 125, 10, 10, 110, 101, 119, 32, 80, 72, 80, 68, 101, 99, 114, 121, 112, 116, 111, 114, 40,
   41, 59, 10, 63, 62, 10]

/-- The four extracted fields (`None` when a pattern does not match,
exactly as the Python dict holds `None` for a missing field). -/
structure DecryptInfo where
  file_key : Option Bytes
  salt : Option Bytes
  integrity_hash : Option Bytes
  chunks : Option Bytes
deriving DecidableEq

/-- `PHPDecryptor._extract_decrypt_info`. -/
def extract_decrypt_info (s : Bytes) : DecryptInfo :=
  { file_key := scanExtract markFileKey s
    salt := scanExtract markSalt s
    integrity_hash := scanExtract markIntegrity s
    chunks := scanExtract markChunks s }

/-! ### Positional reasoning about the scan -/

def nth : Bytes → Nat → Option Nat
  | [], _ => none
  | c :: _, 0 => some c
  | _ :: t, k + 1 => nth t k

theorem nth_lt_length : ∀ {l : Bytes} {k x : Nat}, nth l k = some x → k < l.length := by
  intro l
  induction l with
  | nil => intro k x h; simp [nth] at h
  | cons c t ih =>
      intro k x h
      cases k with
      | zero => simp
      | succ k2 => exact Nat.succ_lt_succ (ih h)

theorem nth_mem : ∀ {l : Bytes} {k x : Nat}, nth l k = some x → x ∈ l := by
  intro l
  induction l with
  | nil => intro k x h; simp [nth] at h
  | cons c t ih =>
      intro k x h
      cases k with
      | zero => simp [nth] at h; simp [h]
      | succ k2 => exact List.mem_cons_of_mem _ (ih h)

theorem nth_append_left : ∀ {a : Bytes} (b : Bytes) {k : Nat}, k < a.length →
    nth (a ++ b) k = nth a k := by
  intro a
  induction a with
  | nil => intro b k h; simp at h
  | cons c t ih =>
      intro b k h
      cases k with
      | zero => rfl
      | succ k2 => exact ih b (by simpa using Nat.lt_of_succ_lt_succ h)

theorem nth_append_right : ∀ {a : Bytes} (b : Bytes) {k : Nat}, a.length ≤ k →
    nth (a ++ b) k = nth b (k - a.length) := by
  intro a
  induction a with
  | nil => intro b k h; simp [nth]
  | cons c t ih =>
      intro b k h
      cases k with
      | zero => simp at h
      | succ k2 =>
          simp only [List.cons_append, nth, List.length_cons, Nat.succ_sub_succ]
          exact ih b (by simpa using Nat.le_of_succ_le_succ h)

theorem startsWith_append (p r : Bytes) : startsWith p (p ++ r) = true := by
  induction p with
  | nil => rfl
  | cons c t ih => simp [startsWith, ih]

theorem startsWith_nth : ∀ {m s : Bytes}, startsWith m s = true →
    ∀ k, k < m.length → nth s k = nth m k := by
  intro m
  induction m with
  | nil => intro s h k hk; simp at hk
  | cons p ps ih =>
      intro s h k hk
      cases s with
      | nil => simp [startsWith] at h
      | cons c cs =>
          simp only [startsWith, Bool.and_eq_true, beq_iff_eq] at h
          cases k with
          | zero => simp [nth, h.1]
          | succ k2 => exact ih h.2 k2 (by simpa using Nat.lt_of_succ_lt_succ hk)

def clash : Bytes → Bytes → Bool
  | p :: ps, c :: cs => p != c || clash ps cs
  | _, _ => false

theorem clash_startsWith : ∀ (m w t : Bytes), clash m w = true → startsWith m (w ++ t) = false := by
  intro m
  induction m with
  | nil => intro w t h; cases w <;> simp [clash] at h
  | cons p ps ih =>
      intro w t h
      cases w with
      | nil => simp [clash] at h
      | cons c cs =>
          simp only [clash, Bool.or_eq_true, bne_iff_ne] at h
          simp only [List.cons_append, startsWith]
          rcases h with h | h
          · simp [h]
          · simp [ih cs t h]

def allClash (m : Bytes) : Bytes → Bool
  | [] => true
  | c :: t => clash m (c :: t) && allClash m t

theorem scan_skip : ∀ (a m b : Bytes), allClash m a = true →
    scanExtract m (a ++ b) = scanExtract m b := by
  intro a
  induction a with
  | nil => intro m b h; rfl
  | cons c t ih =>
      intro m b h
      simp only [allClash, Bool.and_eq_true] at h
      obtain ⟨h1, h2⟩ := h
      have hsw := clash_startsWith m (c :: t) b h1
      simp only [List.cons_append] at hsw ⊢
      rw [scanExtract]
      simp only [hsw, Bool.false_eq_true, if_false]
      exact ih m b h2

theorem scan_skip_val (m b : Bytes) (hm : nth m 8 = some 36)
    (hb : ∀ j, j < 8 → nth b j ≠ some 36) :
    ∀ v : Bytes, (∀ x ∈ v, x ≠ 36) → scanExtract m (v ++ b) = scanExtract m b := by
  intro v
  induction v with
  | nil => intro hv; rfl
  | cons c t ih =>
      intro hv
      have hsw : startsWith m ((c :: t) ++ b) = false := by
        cases hx : startsWith m ((c :: t) ++ b) with
        | false => rfl
        | true =>
            exfalso
            have h8 := startsWith_nth hx 8 (nth_lt_length hm)
            rw [hm] at h8
            rcases Nat.lt_or_ge 8 (c :: t).length with hlt | hge
            · rw [nth_append_left _ hlt] at h8
              exact hv 36 (nth_mem h8) rfl
            · rw [nth_append_right _ hge] at h8
              refine hb (8 - (c :: t).length) ?_ h8
              simp only [List.length_cons] at hge ⊢
              omega
      simp only [List.cons_append] at hsw ⊢
      rw [scanExtract]
      simp only [hsw, Bool.false_eq_true, if_false]
      exact ih (fun x hx => hv x (by simp [hx]))

theorem scan_capture (m v r : Bytes) (hm : m ≠ []) (hvq : ∀ x ∈ v, x ≠ 39) (hne : v ≠ [])
    (hr : startsWith [39, 59] r = true) :
    scanExtract m (m ++ (v ++ r)) = some v := by
  match m, hm with
  | p :: ps, _ =>
    have hr0 : nth r 0 = some 39 := by
      have := startsWith_nth hr 0 (by simp)
      simpa [nth] using this
    have hsw : startsWith (p :: ps) ((p :: ps) ++ (v ++ r)) = true :=
      startsWith_append _ _
    have hdrop : ((p :: ps) ++ (v ++ r)).drop (p :: ps).length = v ++ r :=
      List.drop_left _ _
    have hcap : (v ++ r).takeWhile (fun x => x != 39) = v := by
      apply takeWhile_append_all
      · intro x hx; simpa using hvq x hx
      · intro c hc
        cases r with
        | nil => simp at hc
        | cons a t =>
            simp only [nth] at hr0
            simp only [List.head?] at hc
            have ha : a = 39 := by simpa using hr0
            have hca : c = a := by simpa using hc.symm
            subst hca; subst ha; rfl
    simp only [List.cons_append] at hsw hdrop ⊢
    rw [scanExtract]
    simp only [hsw, if_true]
    simp only [hdrop, hcap]
    rw [List.drop_left]
    have hcne : (!v.isEmpty) = true := by
      cases v with
      | nil => exact absurd rfl hne
      | cons a b => rfl
    simp [hcne, hr]

/-! ## The cryptographic primitives (library calls, taken as parameters) -/

/-- AES-256-GCM as provided by the `cryptography` library: `enc key nonce
plaintext` returns (ciphertext, tag); `dec key nonce tag ciphertext`
returns the plaintext, or `none` for an `InvalidTag` failure. -/
structure GCM where
  enc : Bytes → Bytes → Bytes → Bytes × Bytes
  dec : Bytes → Bytes → Bytes → Bytes → Option Bytes

/-- The AEAD decryption contract: decrypting a genuine (ciphertext, tag)
pair under its key and nonce returns the plaintext. -/
def GCM.Correct (g : GCM) : Prop :=
  ∀ k n p, g.dec k n (g.enc k n p).2 (g.enc k n p).1 = some p

/-- Encrypting a genuine byte string yields genuine ciphertext and tag
bytes. -/
def GCM.ValidOut (g : GCM) : Prop :=
  ∀ k n p, ValidBytes p → ValidBytes (g.enc k n p).1 ∧ ValidBytes (g.enc k n p).2

/-- A `secrets.token_bytes` source: call `i` returns the `i`-th random
value drawn by one encryption call (call 0 the iv, call `k + 1` the nonce
of chunk `k`), each a genuine byte string. -/
def RndValid (rnd : Nat → Bytes) : Prop := ∀ i, ValidBytes (rnd i)

/-- HMAC-SHA256 digests are nonempty genuine byte strings. -/
def HmacValid (hm : Bytes → Bytes → Bytes) : Prop :=
  ∀ k msg, ValidBytes (hm k msg) ∧ hm k msg ≠ []

/-! ## KeyManager -/

/-- `os.path.basename` (POSIX): everything after the last slash (47). -/
def basenameB (p : Bytes) : Bytes := (p.reverse.takeWhile (fun c => c != 47)).reverse

/-- `KeyManager.generate_file_key`: PBKDF2-HMAC-SHA256 with the master key
as password, the base name of the file path as salt, 1000 iterations and
32 bytes of output; `pbkdf2 password salt iterations length`. -/
def generate_file_key (pbkdf2 : Bytes → Bytes → Nat → Nat → Bytes)
    (master_key : Bytes) (file_path : Bytes) : Bytes :=
  pbkdf2 master_key (basenameB file_path) 1000 32

/-! ## Encryptor -/

/-- Python `range(0, n, cs)` for a positive step `cs`. -/
def pyRange (n cs : Nat) : List Nat := (List.range ((n + cs - 1) / cs)).map (fun k => k * cs)

/-- The plaintext slices `data[i : i + cs]` taken by the chunk loop. -/
def pyChunks (data : Bytes) (cs : Nat) : List Bytes :=
  (pyRange data.length cs).map (fun i => (data.drop i).take cs)

/-- `PHPEncryptor._encrypt_chunks`: one fresh 12-byte `iv` for the whole
call (`rnd 0`), then for the slice at byte offset `i` a fresh nonce
(`rnd (i / cs + 1)`), AES-256-GCM encryption, and a record of base64
fields with `index := i // chunk_size`. -/
def encrypt_chunks (g : GCM) (rnd : Nat → Bytes) (data key : Bytes)
    (chunk_size : Nat) : List ChunkRec :=
  (pyRange data.length chunk_size).map (fun i =>
    let chunk := (data.drop i).take chunk_size
    let nonce := rnd (i / chunk_size + 1)
    let ct := g.enc key nonce chunk
    { iv := base64Encode (rnd 0)
      nonce := base64Encode nonce
      data := base64Encode ct.1
      tag := base64Encode ct.2
      index := i / chunk_size })

/-- The text `''.join(chunk['nonce'] + chunk['data'] + chunk['tag'])` over
which both `_generate_integrity_hash` and `_verify_integrity` run HMAC:
the concatenation of the base64 text fields, in list order. -/
def chunksMsg : List ChunkRec → Bytes
  | [] => []
  | c :: t => (c.nonce ++ c.data ++ c.tag) ++ chunksMsg t

/-- `PHPEncryptor._generate_integrity_hash`: base64 of the HMAC-SHA256 of
that text under the file key. -/
def generate_integrity_hash (hm : Bytes → Bytes → Bytes) (chunks : List ChunkRec)
    (key : Bytes) : Bytes :=
  base64Encode (hm key (chunksMsg chunks))

/-- `PHPEncryptor._generate_decryptor`: the stub text with the four
embedded fields (the file key and salt base64-encoded here, the integrity
hash already base64 text, the chunk list JSON-serialized then encoded). -/
def generate_decryptor (chunks : List ChunkRec) (file_key salt : Bytes)
    (integrity_hash : Bytes) : Bytes :=
  stubHead ++ markFileKey ++ base64Encode file_key ++
    sepLine ++ markSalt ++ base64Encode salt ++
    sepLine ++ markIntegrity ++ integrity_hash ++
    sepLine ++ markChunks ++ base64Encode (dumpChunks chunks) ++ stubTail

/-- The byte-level core of `PHPEncryptor.encrypt_file`, from `raw_data`
(the UTF-8 bytes of the, possibly obfuscated, source text) to the written
artifact text: derive the file key from the input path, encrypt in chunks
of 8192 bytes, hash, serialize the stub. -/
def encrypt_file_core (g : GCM) (rnd : Nat → Bytes) (hm : Bytes → Bytes → Bytes)
    (pbkdf2 : Bytes → Bytes → Nat → Nat → Bytes)
    (master_key salt raw_data input_path : Bytes) : Bytes :=
  let file_key := generate_file_key pbkdf2 master_key input_path
  let chunks := encrypt_chunks g rnd raw_data file_key 8192
  let ih := generate_integrity_hash hm chunks file_key
  generate_decryptor chunks file_key salt ih

/-! ## Decryptor -/

/-- The failure cases of `PHPDecryptor._decrypt_data`.  In Python every
one of them is re-raised as the generic `Exception('Decryption failed:
...')`; the constructors record which operation raised. -/
inductive DecErr where
  /-- `base64.b64decode(None)` raised `TypeError`: the chunks field was
  absent from the artifact. -/
  | missingChunks
  /-- the chunks field failed to base64-decode (`binascii.Error`). -/
  | chunksB64Error
  /-- `json.loads` failed on the decoded chunks field. -/
  | chunksJsonError
  /-- a per-chunk nonce/data/tag field failed to base64-decode. -/
  | chunkB64Error
  /-- AES-GCM authentication failed for some chunk (`InvalidTag`). -/
  | cryptoFailure
  /-- `_verify_integrity` returned false after all chunks decrypted. -/
  | integrityFailure
deriving DecidableEq

/-- `PHPDecryptor._verify_integrity`.  The decrypted `dataArg` is accepted
and ignored, exactly as in the source; every internal failure is caught
and yields `false`; the final comparison is `hmac.compare_digest`. -/
def verify_integrity (hm : Bytes → Bytes → Bytes) (dataArg : Bytes)
    (info : DecryptInfo) (file_key : Bytes) : Bool :=
  match info.chunks with
  | none => false
  | some chB =>
    match base64Decode chB with
    | none => false
    | some cj =>
      match jsonLoadsChunks cj with
      | none => false
      | some chunks =>
        match info.integrity_hash with
        | none => false
        | some ihField =>
          match base64Decode ihField with
          | none => false
          | some expected => hm file_key (chunksMsg chunks) == expected

/-- The per-chunk loop of `_decrypt_data`: decode the stored base64
nonce, ciphertext and tag, AES-GCM-decrypt, and concatenate the
plaintexts in list order. -/
def decrypt_chunks_loop (g : GCM) (key : Bytes) : List ChunkRec → Except DecErr Bytes
  | [] => Except.ok []
  | c :: rest =>
    match base64Decode c.nonce, base64Decode c.data, base64Decode c.tag with
    | some nonce, some dat, some tg =>
      match g.dec key nonce tg dat with
      | none => Except.error DecErr.cryptoFailure
      | some p =>
        match decrypt_chunks_loop g key rest with
        | Except.ok ps => Except.ok (p ++ ps)
        | e => e
    | _, _, _ => Except.error DecErr.chunkB64Error

/-- `PHPDecryptor._decrypt_data` at byte level (the final UTF-8 decode of
the plaintext bytes back to text mirrors the UTF-8 encode on the
encryption side and is outside the byte model). -/
def decrypt_data (g : GCM) (hm : Bytes → Bytes → Bytes)
    (info : DecryptInfo) (file_key : Bytes) : Except DecErr Bytes :=
  match info.chunks with
  | none => Except.error DecErr.missingChunks
  | some chB =>
    match base64Decode chB with
    | none => Except.error DecErr.chunksB64Error
    | some cj =>
      match jsonLoadsChunks cj with
      | none => Except.error DecErr.chunksJsonError
      | some chunks =>
        match decrypt_chunks_loop g file_key chunks with
        | Except.error e => Except.error e
        | Except.ok dat =>
          if verify_integrity hm dat info file_key then Except.ok dat
          else Except.error DecErr.integrityFailure

/-- The core of `PHPDecryptor.decrypt_file`: extract the embedded fields
from the artifact text, re-derive the file key from the master key and
the original file path, and decrypt. -/
def decrypt_file_core (g : GCM) (hm : Bytes → Bytes → Bytes)
    (pbkdf2 : Bytes → Bytes → Nat → Nat → Bytes)
    (master_key encrypted_code original_file_path : Bytes) : Except DecErr Bytes :=
  let info := extract_decrypt_info encrypted_code
  let file_key := generate_file_key pbkdf2 master_key original_file_path
  decrypt_data g hm info file_key

/-! ### Chunking lemmas -/

theorem pyRange_zero (cs : Nat) : pyRange 0 cs = [] := by
  unfold pyRange
  have : (0 + cs - 1) / cs = 0 := by
    rcases Nat.eq_zero_or_pos cs with h | h
    · simp [h]
    · rw [Nat.div_eq_of_lt (by omega)]
  rw [this]
  rfl

theorem pyChunks_nil (cs : Nat) : pyChunks [] cs = [] := by
  unfold pyChunks
  rw [List.length_nil, pyRange_zero]
  rfl

theorem pyCount_succ (n cs : Nat) (hn : 0 < n) (hcs : 0 < cs) :
    (n + cs - 1) / cs = (n - cs + cs - 1) / cs + 1 := by
  have h1 : n + cs - 1 = (n - 1) + cs := by omega
  rw [h1, Nat.add_div_right _ hcs]
  rcases Nat.lt_or_ge n cs with h | h
  · have h2 : n - cs + cs - 1 = cs - 1 := by omega
    rw [h2, Nat.div_eq_of_lt (by omega), Nat.div_eq_of_lt (by omega)]
  · have h2 : n - cs + cs - 1 = n - 1 := by omega
    rw [h2]

theorem pyChunks_cons (data : Bytes) (cs : Nat) (hd : data ≠ []) (hcs : 0 < cs) :
    pyChunks data cs = data.take cs :: pyChunks (data.drop cs) cs := by
  unfold pyChunks pyRange
  have hlen : 0 < data.length := List.length_pos.mpr hd
  rw [List.length_drop, pyCount_succ data.length cs hlen hcs]
  rw [List.range_succ_eq_map]
  simp only [List.map_cons, List.map_map, Nat.zero_mul, List.drop_zero]
  congr 1
  apply List.map_congr_left
  intro k _
  simp only [Function.comp_apply]
  rw [List.drop_drop]
  congr 2
  rw [Nat.succ_mul]
  omega

theorem pyChunks_join (data : Bytes) (cs : Nat) (hcs : 0 < cs) :
    (pyChunks data cs).foldr (· ++ ·) [] = data := by
  have H : ∀ n (d : Bytes), d.length = n → (pyChunks d cs).foldr (· ++ ·) [] = d := by
    intro n
    induction n using Nat.strong_induction_on with
    | _ n ih =>
        intro d hd
        cases d with
        | nil => simp [pyChunks_nil]
        | cons x xs =>
            rw [pyChunks_cons (x :: xs) cs (by simp) hcs]
            simp only [List.foldr_cons]
            have hlt : ((x :: xs).drop cs).length < n := by
              rw [List.length_drop, ← hd]
              simp only [List.length_cons]
              omega
            rw [ih _ hlt _ rfl]
            exact List.take_append_drop cs (x :: xs)
  exact H data.length data rfl

theorem pyChunks_length (data : Bytes) (cs : Nat) :
    (pyChunks data cs).length = (data.length + cs - 1) / cs := by
  simp [pyChunks, pyRange]

/-! ### Extraction correctness on the generated artifact -/

theorem mark_head_ne36 (mk Y : Bytes) (hmk : nth mk 0 = some 112) :
    nth (mk ++ Y) 0 ≠ some 36 := by
  cases mk with
  | nil => simp [nth] at hmk
  | cons a t =>
      simp only [nth] at hmk
      simp only [List.cons_append, nth]
      intro h
      have h1 : a = 112 := by simpa using hmk
      have h2 : a = 36 := by simpa using h
      omega

theorem sep_no36 (X : Bytes) (hX : nth X 0 ≠ some 36) :
    ∀ j, j < 8 → nth (sepLine ++ X) j ≠ some 36 := by
  intro j hj
  rcases Nat.lt_or_ge j 7 with h | h
  · rw [nth_append_left _ (by simp [sepLine]; omega)]
    interval_cases j <;> decide
  · have hj7 : j = 7 := by omega
    subst hj7
    rw [nth_append_right _ (by simp [sepLine])]
    simpa [sepLine] using hX

theorem scan_skip_val_sep (m X : Bytes) (hm : nth m 8 = some 36) (hX : nth X 0 ≠ some 36) :
    ∀ v : Bytes, (∀ x ∈ v, x ≠ 36) →
      scanExtract m (v ++ (sepLine ++ X)) = scanExtract m (sepLine ++ X) :=
  fun v hv => scan_skip_val m (sepLine ++ X) hm (sep_no36 X hX) v hv

theorem isB64_ne36 {v : Bytes} (h : ∀ x ∈ v, isB64Code x = true) : ∀ x ∈ v, x ≠ 36 :=
  fun x hx => (isB64_facts (h x hx)).2.1

theorem isB64_ne39 {v : Bytes} (h : ∀ x ∈ v, isB64Code x = true) : ∀ x ∈ v, x ≠ 39 :=
  fun x hx => (isB64_facts (h x hx)).2.2.1

/-- The integrityHash pattern captures the embedded value on the stub. -/
theorem scanIntegrity_stub (fkv sv ihv chv : Bytes)
    (hfk : ∀ x ∈ fkv, isB64Code x = true) (hsv : ∀ x ∈ sv, isB64Code x = true)
    (hihv : ∀ x ∈ ihv, isB64Code x = true) (hihne : ihv ≠ []) :
    scanExtract markIntegrity
      (stubHead ++ (markFileKey ++ (fkv ++ (sepLine ++ (markSalt ++ (sv ++ (sepLine ++
        (markIntegrity ++ (ihv ++ (sepLine ++ (markChunks ++ (chv ++ stubTail)))))))))))) =
      some ihv := by
  rw [scan_skip stubHead markIntegrity _ (by decide)]
  rw [scan_skip markFileKey markIntegrity _ (by decide)]
  rw [scan_skip_val_sep markIntegrity _ (by decide)
      (mark_head_ne36 markSalt _ (by decide)) fkv (isB64_ne36 hfk)]
  rw [scan_skip sepLine markIntegrity _ (by decide)]
  rw [scan_skip markSalt markIntegrity _ (by decide)]
  rw [scan_skip_val_sep markIntegrity _ (by decide)
      (mark_head_ne36 markIntegrity _ (by decide)) sv (isB64_ne36 hsv)]
  rw [scan_skip sepLine markIntegrity _ (by decide)]
  exact scan_capture markIntegrity ihv _ (by decide) (isB64_ne39 hihv) hihne rfl

/-- The chunks pattern captures the embedded value on the stub. -/
theorem scanChunks_stub (fkv sv ihv chv : Bytes)
    (hfk : ∀ x ∈ fkv, isB64Code x = true) (hsv : ∀ x ∈ sv, isB64Code x = true)
    (hihv : ∀ x ∈ ihv, isB64Code x = true) (hchv : ∀ x ∈ chv, isB64Code x = true)
    (hchne : chv ≠ []) :
    scanExtract markChunks
      (stubHead ++ (markFileKey ++ (fkv ++ (sepLine ++ (markSalt ++ (sv ++ (sepLine ++
        (markIntegrity ++ (ihv ++ (sepLine ++ (markChunks ++ (chv ++ stubTail)))))))))))) =
      some chv := by
  rw [scan_skip stubHead markChunks _ (by decide)]
  rw [scan_skip markFileKey markChunks _ (by decide)]
  rw [scan_skip_val_sep markChunks _ (by decide)
      (mark_head_ne36 markSalt _ (by decide)) fkv (isB64_ne36 hfk)]
  rw [scan_skip sepLine markChunks _ (by decide)]
  rw [scan_skip markSalt markChunks _ (by decide)]
  rw [scan_skip_val_sep markChunks _ (by decide)
      (mark_head_ne36 markIntegrity _ (by decide)) sv (isB64_ne36 hsv)]
  rw [scan_skip sepLine markChunks _ (by decide)]
  rw [scan_skip markIntegrity markChunks _ (by decide)]
  rw [scan_skip_val_sep markChunks _ (by decide)
      (mark_head_ne36 markChunks _ (by decide)) ihv (isB64_ne36 hihv)]
  rw [scan_skip sepLine markChunks _ (by decide)]
  exact scan_capture markChunks chv _ (by decide) (isB64_ne39 hchv) hchne (by decide)

/-! ### Validity of the serialized data -/

theorem valid_append {a b : Bytes} (ha : ValidBytes a) (hb : ValidBytes b) :
    ValidBytes (a ++ b) := by
  intro x hx
  rcases List.mem_append.mp hx with h | h
  · exact ha x h
  · exact hb x h

theorem fieldOK_valid {b : Bytes} (h : fieldOK b) : ValidBytes b :=
  fun x hx => (isB64_facts (h x hx)).2.2.2.2

theorem natToDec_valid (n : Nat) : ValidBytes (natToDec n) := by
  intro x hx
  have := natToDec_digits n x hx
  omega

theorem jsonStrField_valid (key val : Bytes) (hk : ValidBytes key) (hv : fieldOK val) :
    ValidBytes (jsonStrField key val) := by
  unfold jsonStrField
  apply valid_append
  · intro x hx
    rcases List.mem_cons.mp hx with rfl | h2
    · omega
    · rcases List.mem_append.mp h2 with h3 | h3
      · exact hk x h3
      · simp at h3; omega
  · intro x hx
    rcases List.mem_cons.mp hx with rfl | h2
    · omega
    · rcases List.mem_append.mp h2 with h3 | h3
      · exact fieldOK_valid hv x h3
      · simp at h3; omega

theorem dumpChunk_valid (c : ChunkRec) (hc : chunkOK c) : ValidBytes (dumpChunk c) := by
  obtain ⟨h1, h2, h3, h4⟩ := hc
  unfold dumpChunk
  exact valid_append (valid_append (valid_append (valid_append (valid_append (valid_append
    (valid_append (valid_append (valid_append (valid_append (valid_append (by decide)
    (jsonStrField_valid _ _ (by decide) h1)) (by decide))
    (jsonStrField_valid _ _ (by decide) h2)) (by decide))
    (jsonStrField_valid _ _ (by decide) h3)) (by decide))
    (jsonStrField_valid _ _ (by decide) h4)) (by decide)) (by decide))
    (natToDec_valid _)) (by decide)

theorem joinChunks_valid (l : List ChunkRec) (hok : ∀ c ∈ l, chunkOK c) :
    ValidBytes (joinChunks l) := by
  induction l with
  | nil => intro x hx; simp [joinChunks] at hx
  | cons c cs ih =>
      cases cs with
      | nil => exact dumpChunk_valid c (hok c (by simp))
      | cons c2 cs2 =>
          show ValidBytes (dumpChunk c ++ [44, 32] ++ joinChunks (c2 :: cs2))
          exact valid_append (valid_append (dumpChunk_valid c (hok c (by simp))) (by decide))
            (ih (fun x hx => hok x (by simp [List.mem_cons] at hx ⊢; tauto)))

theorem dumpChunks_valid (l : List ChunkRec) (hok : ∀ c ∈ l, chunkOK c) :
    ValidBytes (dumpChunks l) := by
  unfold dumpChunks
  exact valid_append (valid_append (by decide) (joinChunks_valid l hok)) (by decide)

theorem dumpChunks_ne_nil (l : List ChunkRec) : dumpChunks l ≠ [] := by
  simp [dumpChunks]

theorem base64Encode_ne_nil {l : Bytes} (h : l ≠ []) : base64Encode l ≠ [] := by
  intro hc
  have h1 := base64Encode_length l
  rw [hc] at h1
  have h2 : 0 < l.length := List.length_pos.mpr h
  have h3 : 1 ≤ (l.length + 2) / 3 := by
    rw [Nat.le_div_iff_mul_le (by norm_num)]
    omega
  simp at h1
  omega

/-! ### The decrypt side on a genuine artifact -/

theorem encrypt_chunks_ok (g : GCM) (rnd : Nat → Bytes) (data key : Bytes) (cs : Nat) :
    ∀ c ∈ encrypt_chunks g rnd data key cs, chunkOK c := by
  intro c hc
  unfold encrypt_chunks at hc
  obtain ⟨i, _, rfl⟩ := List.mem_map.mp hc
  exact ⟨encode_isB64 _, encode_isB64 _, encode_isB64 _, encode_isB64 _⟩

theorem slice_valid {data : Bytes} (hd : ValidBytes data) (i cs : Nat) :
    ValidBytes ((data.drop i).take cs) :=
  fun x hx => hd x (List.drop_subset _ _ (List.take_subset _ _ hx))

theorem loop_on_encrypted (g : GCM) (rnd : Nat → Bytes) (data key : Bytes) (cs : Nat)
    (hd : ValidBytes data)
    (hgc : GCM.Correct g) (hgv : GCM.ValidOut g) (hrnd : RndValid rnd) :
    decrypt_chunks_loop g key (encrypt_chunks g rnd data key cs) =
      Except.ok ((pyChunks data cs).foldr (· ++ ·) []) := by
  unfold encrypt_chunks pyChunks
  generalize pyRange data.length cs = idxs
  induction idxs with
  | nil => rfl
  | cons i rest ih =>
      simp only [List.map_cons, List.foldr_cons, decrypt_chunks_loop]
      rw [base64_roundtrip _ (hrnd (i / cs + 1)),
        base64_roundtrip _ (hgv key (rnd (i / cs + 1)) ((data.drop i).take cs)
          (slice_valid hd i cs)).1,
        base64_roundtrip _ (hgv key (rnd (i / cs + 1)) ((data.drop i).take cs)
          (slice_valid hd i cs)).2]
      simp only [hgc key (rnd (i / cs + 1)) ((data.drop i).take cs)]
      rw [ih]

/-- Integrity verification succeeds on a genuine stored hash over the
genuine serialized chunk list. -/
theorem verify_integrity_genuine (hm : Bytes → Bytes → Bytes) (D fk : Bytes)
    (fkf sf : Option Bytes) (l : List ChunkRec)
    (hok : ∀ c ∈ l, chunkOK c) (hvalid : ValidBytes (hm fk (chunksMsg l))) :
    verify_integrity hm D ⟨fkf, sf, some (base64Encode (hm fk (chunksMsg l))),
      some (base64Encode (dumpChunks l))⟩ fk = true := by
  simp only [verify_integrity, base64_roundtrip (dumpChunks l) (dumpChunks_valid l hok),
    jsonLoadsChunks_dump l hok, base64_roundtrip (hm fk (chunksMsg l)) hvalid,
    beq_self_eq_true]

/-- `_decrypt_data` on a record holding the genuine integrity hash and the
genuine serialized chunk list returns whatever the chunk loop returns. -/
theorem decrypt_data_genuine (g : GCM) (hm : Bytes → Bytes → Bytes) (fkf sf : Option Bytes)
    (l : List ChunkRec) (fk D : Bytes)
    (hok : ∀ c ∈ l, chunkOK c) (hvalid : ValidBytes (hm fk (chunksMsg l)))
    (hloop : decrypt_chunks_loop g fk l = Except.ok D) :
    decrypt_data g hm ⟨fkf, sf, some (base64Encode (hm fk (chunksMsg l))),
      some (base64Encode (dumpChunks l))⟩ fk = Except.ok D := by
  simp only [decrypt_data, base64_roundtrip (dumpChunks l) (dumpChunks_valid l hok),
    jsonLoadsChunks_dump l hok, hloop,
    verify_integrity_genuine hm D fk fkf sf l hok hvalid]
  rfl

set_option maxHeartbeats 2000000 in
/-- Putting it together: decrypting the artifact written by the byte-level
encryption core returns the plaintext bytes unchanged. -/
theorem roundtrip_core (g : GCM) (rnd : Nat → Bytes) (hm : Bytes → Bytes → Bytes)
    (pbkdf2 : Bytes → Bytes → Nat → Nat → Bytes) (mk salt P path : Bytes)
    (hP : ValidBytes P)
    (hgc : GCM.Correct g) (hgv : GCM.ValidOut g) (hrnd : RndValid rnd) (hhm : HmacValid hm) :
    decrypt_file_core g hm pbkdf2 mk (encrypt_file_core g rnd hm pbkdf2 mk salt P path) path =
      Except.ok P := by
  set fk := generate_file_key pbkdf2 mk path with hfkdef
  set chunks := encrypt_chunks g rnd P fk 8192 with hchdef
  show decrypt_data g hm (extract_decrypt_info
    (generate_decryptor chunks fk salt (generate_integrity_hash hm chunks fk))) fk = Except.ok P
  have hok := encrypt_chunks_ok g rnd P fk 8192
  rw [← hchdef] at hok
  have hihB64 : ∀ x ∈ generate_integrity_hash hm chunks fk, isB64Code x = true := by
    unfold generate_integrity_hash
    exact encode_isB64 _
  have hihne : generate_integrity_hash hm chunks fk ≠ [] := by
    unfold generate_integrity_hash
    exact base64Encode_ne_nil (hhm fk (chunksMsg chunks)).2
  have hchB64 : ∀ x ∈ base64Encode (dumpChunks chunks), isB64Code x = true := encode_isB64 _
  have hchne : base64Encode (dumpChunks chunks) ≠ [] :=
    base64Encode_ne_nil (dumpChunks_ne_nil chunks)
  have hE1 : scanExtract markIntegrity
      (generate_decryptor chunks fk salt (generate_integrity_hash hm chunks fk)) =
      some (generate_integrity_hash hm chunks fk) := by
    unfold generate_decryptor
    simp only [List.append_assoc]
    exact scanIntegrity_stub _ _ _ _ (encode_isB64 _) (encode_isB64 _) hihB64 hihne
  have hE2 : scanExtract markChunks
      (generate_decryptor chunks fk salt (generate_integrity_hash hm chunks fk)) =
      some (base64Encode (dumpChunks chunks)) := by
    unfold generate_decryptor
    simp only [List.append_assoc]
    exact scanChunks_stub _ _ _ _ (encode_isB64 _) (encode_isB64 _) hihB64 hchB64 hchne
  have hinfoeq : extract_decrypt_info
      (generate_decryptor chunks fk salt (generate_integrity_hash hm chunks fk)) =
      ⟨scanExtract markFileKey
          (generate_decryptor chunks fk salt (generate_integrity_hash hm chunks fk)),
        scanExtract markSalt
          (generate_decryptor chunks fk salt (generate_integrity_hash hm chunks fk)),
        some (generate_integrity_hash hm chunks fk),
        some (base64Encode (dumpChunks chunks))⟩ := by
    simp only [extract_decrypt_info]
    rw [hE1, hE2]
  have hloop := loop_on_encrypted g rnd P fk 8192 hP hgc hgv hrnd
  rw [← hchdef] at hloop
  rw [hinfoeq]
  simp only [generate_integrity_hash]
  rw [decrypt_data_genuine g hm _ _ chunks fk _ hok (hhm fk (chunksMsg chunks)).1 hloop]
  exact congrArg Except.ok (pyChunks_join P 8192 (by omega))

/-! ## Obfuscator (`src/utils/obfuscator.py`)

`PHPObfuscator` keeps three per-instance dicts (`variable_map`,
`function_map`, `class_map`).  `_generate_obfuscated_name` draws a fresh
random name on every call, with no collision check and no comparison
against reserved names; the successive draws are modeled as a stream
`gen`, call `k` returning the `k`-th generated name (for variables a
dollar sigil followed by 8 to 12 random alphanumerics, for functions and
classes 10 to 15 random letters).  Identifiers and names are byte
strings. -/

/-- The PHP superglobal variable names of `PHPParser.superglobals` (ASCII). -/
def superglobalNames : List Bytes :=
  [[36, 71, 76, 79, 66, 65, 76, 83],
   [36, 95, 83, 69, 82, 86, 69, 82],
   [36, 95, 71, 69, 84],
   [36, 95, 80, 79, 83, 84],
   [36, 95, 70, 73, 76, 69, 83],
   [36, 95, 67, 79, 79, 75, 73, 69],
   [36, 95, 83, 69, 83, 83, 73, 79, 78],
   [36, 95, 82, 69, 81, 85, 69, 83, 84],
   [36, 95, 69, 78, 86],
   [36, 116, 104, 105, 115],
   [36, 97, 114, 103, 99],
   [36, 97, 114, 103, 118]]

/-- The PHP magic constants of `PHPParser.magic_constants` (ASCII). -/
def magicConstants : List Bytes :=
  [[95, 95, 76, 73, 78, 69, 95, 95],
   [95, 95, 70, 73, 76, 69, 95, 95],
   [95, 95, 68, 73, 82, 95, 95],
   [95, 95, 70, 85, 78, 67, 84, 73, 79, 78, 95, 95],
   [95, 95, 67, 76, 65, 83, 83, 95, 95],
   [95, 95, 84, 82, 65, 73, 84, 95, 95],
   [95, 95, 77, 69, 84, 72, 79, 68, 95, 95],
   [95, 95, 78, 65, 77, 69, 83, 80, 65, 67, 69, 95, 95]]

/-- The PHP reserved keywords of `PHPParser.reserved_keywords` (ASCII). -/
def reservedKeywords : List Bytes :=
  [[97, 98, 115, 116, 114, 97, 99, 116],
   [97, 110, 100],
   [97, 114, 114, 97, 121],
   [97, 115],
   [98, 114, 101, 97, 107],
   [99, 97, 108, 108, 97, 98, 108, 101],
   [99, 97, 115, 101],
   [99, 97, 116, 99, 104],
   [99, 108, 97, 115, 115],
   [99, 108, 111, 110, 101],
   [99, 111, 110, 115, 116],
   [99, 111, 110, 116, 105, 110, 117, 101],
   [100, 101, 99, 108, 97, 114, 101],
   [100, 101, 102, 97, 117, 108, 116],
   [100, 105, 101],
   [100, 111],
   [101, 99, 104, 111],
   [101, 108, 115, 101],
   [101, 108, 115, 101, 105, 102],
   [101, 109, 112, 116, 121],
   [101, 110, 100, 100, 101, 99, 108, 97, 114, 101],
   [101, 110, 100, 102, 111, 114],
   [101, 110, 100, 102, 111, 114, 101, 97, 99, 104],
   [101, 110, 100, 105, 102],
   [101, 110, 100, 115, 119, 105, 116, 99, 104],
   [101, 110, 100, 119, 104, 105, 108, 101],
   [101, 118, 97, 108],
   [101, 120, 105, 116],
   [101, 120, 116, 101, 110, 100, 115],
   [102, 105, 110, 97, 108],
   [102, 111, 114],
   [102, 111, 114, 101, 97, 99, 104],
   [102, 117, 110, 99, 116, 105, 111, 110],
   [103, 108, 111, 98, 97, 108],
   [103, 111, 116, 111],
   [105, 102],
   [105, 109, 112, 108, 101, 109, 101, 110, 116, 115],
   [105, 110, 99, 108, 117, 100, 101],
   [105, 110, 99, 108, 117, 100, 101, 95, 111, 110, 99, 101],
   [105, 110, 115, 116, 97, 110, 99, 101, 111, 102],
   [105, 110, 115, 116, 101, 97, 100, 111, 102],
   [105, 110, 116, 101, 114, 102, 97, 99, 101],
   [105, 115, 115, 101, 116],
   [108, 105, 115, 116],
   [110, 97, 109, 101, 115, 112, 97, 99, 101],
   [110, 101, 119],
   [111, 114],
   [112, 114, 105, 110, 116],
   [112, 114, 105, 118, 97, 116, 101],
   [112, 114, 111, 116, 101, 99, 116, 101, 100],
   [112, 117, 98, 108, 105, 99],
   [114, 101, 113, 117, 105, 114, 101],
   [114, 101, 113, 117, 105, 114, 101, 95, 111, 110, 99, 101],
   [114, 101, 116, 117, 114, 110],
   [115, 116, 97, 116, 105, 99],
   [115, 119, 105, 116, 99, 104],
   [116, 104, 114, 111, 119],
   [116, 114, 97, 105, 116],
   [116, 114, 121],
   [117, 110, 115, 101, 116],
   [117, 115, 101],
   [118, 97, 114],
   [119, 104, 105, 108, 101],
   [120, 111, 114],
   [121, 105, 101, 108, 100]]

/-- Association list lookup, standing for a Python dict read (the dicts
keep insertion order, new entries are appended). -/
def lookupA : List (Bytes × Bytes) → Bytes → Option Bytes
  | [], _ => none
  | (k, v) :: rest, x => if k = x then some v else lookupA rest x

/-- The map-building loop shared by `_obfuscate_variables`,
`_obfuscate_functions` and `_obfuscate_classes`: for each listed
identifier not yet in the map, store the next generated name.  The
counter is the number of names drawn so far by this instance. -/
def assignNames (gen : Nat → Bytes) : List Bytes → List (Bytes × Bytes) × Nat →
    List (Bytes × Bytes) × Nat
  | [], st => st
  | v :: vs, (m, k) =>
    if (lookupA m v).isSome then assignNames gen vs (m, k)
    else assignNames gen vs (m ++ [(v, gen k)], k + 1)

/-- The obfuscator instance state: the three namespace maps and the
count of names drawn so far. -/
structure ObfState where
  variable_map : List (Bytes × Bytes)
  function_map : List (Bytes × Bytes)
  class_map : List (Bytes × Bytes)
  drawn : Nat

/-- One `obfuscate` pass over the parsed identifier lists: each enabled
category extends its map exactly as the corresponding `_obfuscate_*`
method does (the text substitution then applies the stored mapping and
never modifies it). -/
def obfuscatePass (gen : Nat → Bytes) (st : ObfState)
    (vars funcs classNames : List Bytes)
    (obfuscate_vars obfuscate_functions obfuscate_classes : Bool) : ObfState :=
  let s1 := if obfuscate_vars then assignNames gen vars (st.variable_map, st.drawn)
            else (st.variable_map, st.drawn)
  let s2 := if obfuscate_functions then assignNames gen funcs (st.function_map, s1.2)
            else (st.function_map, s1.2)
  let s3 := if obfuscate_classes then assignNames gen classNames (st.class_map, s2.2)
            else (st.class_map, s2.2)
  { variable_map := s1.1, function_map := s2.1, class_map := s3.1, drawn := s3.2 }

def isAlnumCode (c : Nat) : Bool :=
  (48 ≤ c && c ≤ 57) || (65 ≤ c && c ≤ 90) || (97 ≤ c && c ≤ 122)

/-- A possible result of `_generate_obfuscated_name('var')`: the dollar
sigil (36) followed by 8 to 12 characters from `string.ascii_letters +
string.digits`. -/
def validVarDraw (b : Bytes) : Bool :=
  9 ≤ b.length && b.length ≤ 13 && b.head? == some 36 && b.tail.all isAlnumCode

theorem lookupA_mem : ∀ {m : List (Bytes × Bytes)} {x a : Bytes},
    lookupA m x = some a → (x, a) ∈ m := by
  intro m
  induction m with
  | nil => intro x a h; simp [lookupA] at h
  | cons p rest ih =>
      intro x a h
      match p with
      | (k, v) =>
        simp only [lookupA] at h
        split at h
        · rename_i hkx
          subst hkx
          simp at h
          subst h
          simp
        · exact List.mem_cons_of_mem _ (ih h)

theorem lookupA_append_single (m : List (Bytes × Bytes)) (v w x : Bytes) :
    lookupA (m ++ [(v, w)]) x =
      match lookupA m x with
      | some a => some a
      | none => if v = x then some w else none := by
  induction m with
  | nil => simp [lookupA]
  | cons p rest ih =>
      match p with
      | (k, u) =>
        simp only [List.cons_append, lookupA]
        split
        · rfl
        · exact ih

/-- The values of a map are earlier draws. -/
def MapFrom (gen : Nat → Bytes) (m : List (Bytes × Bytes)) (k : Nat) : Prop :=
  ∀ p ∈ m, ∃ i, i < k ∧ p.2 = gen i

/-- No two identifiers share an alias. -/
def MapInj (m : List (Bytes × Bytes)) : Prop :=
  ∀ x y a, lookupA m x = some a → lookupA m y = some a → x = y

theorem assignNames_inj (gen : Nat → Bytes) (hg : Function.Injective gen) :
    ∀ (vs : List Bytes) (m : List (Bytes × Bytes)) (k : Nat),
      MapFrom gen m k → MapInj m →
      MapFrom gen (assignNames gen vs (m, k)).1 (assignNames gen vs (m, k)).2 ∧
        MapInj (assignNames gen vs (m, k)).1 := by
  intro vs
  induction vs with
  | nil => intro m k h1 h2; exact ⟨h1, h2⟩
  | cons v vs ih =>
      intro m k h1 h2
      simp only [assignNames]
      split
      · exact ih m k h1 h2
      · apply ih
        · intro p hp
          rcases List.mem_append.mp hp with h | h
          · obtain ⟨i, hi, he⟩ := h1 p h
            exact ⟨i, by omega, he⟩
          · simp at h
            refine ⟨k, by omega, ?_⟩
            rw [h]
        · intro x y a hx hy
          rw [lookupA_append_single] at hx hy
          cases hmx : lookupA m x with
          | some ax =>
              rw [hmx] at hx
              simp at hx
              cases hmy : lookupA m y with
              | some ay =>
                  rw [hmy] at hy
                  simp at hy
                  exact h2 x y a (by rw [hmx, hx]) (by rw [hmy, hy])
              | none =>
                  rw [hmy] at hy
                  simp only [] at hy
                  split at hy
                  · simp at hy
                    obtain ⟨i, hi, he⟩ := h1 (x, ax) (lookupA_mem hmx)
                    exfalso
                    apply Nat.lt_irrefl k
                    have : k = i := hg (by rw [hy, ← hx]; exact he)
                    omega
                  · simp at hy
          | none =>
              rw [hmx] at hx
              simp only [] at hx
              split at hx
              · rename_i hvx
                simp at hx
                cases hmy : lookupA m y with
                | some ay =>
                    rw [hmy] at hy
                    simp at hy
                    obtain ⟨i, hi, he⟩ := h1 (y, ay) (lookupA_mem hmy)
                    exfalso
                    apply Nat.lt_irrefl k
                    have : k = i := hg (by rw [hx, ← hy]; exact he)
                    omega
                | none =>
                    rw [hmy] at hy
                    simp only [] at hy
                    split at hy
                    · rename_i hvy
                      rw [← hvx, ← hvy]
                    · simp at hy
              · simp at hx

theorem assignNames_preserves (gen : Nat → Bytes) :
    ∀ (vs : List Bytes) (m : List (Bytes × Bytes)) (k : Nat) (x a : Bytes),
      lookupA m x = some a → lookupA (assignNames gen vs (m, k)).1 x = some a := by
  intro vs
  induction vs with
  | nil => intro m k x a h; exact h
  | cons v vs ih =>
      intro m k x a h
      simp only [assignNames]
      split
      · exact ih m k x a h
      · apply ih
        rw [lookupA_append_single, h]

theorem assignNames_covers (gen : Nat → Bytes) :
    ∀ (vs : List Bytes) (m : List (Bytes × Bytes)) (k : Nat),
      ∀ x ∈ vs, (lookupA (assignNames gen vs (m, k)).1 x).isSome := by
  intro vs
  induction vs with
  | nil => intro m k x hx; simp at hx
  | cons v vs ih =>
      intro m k x hx
      rcases List.mem_cons.mp hx with rfl | hx2
      · simp only [assignNames]
        split
        · rename_i hpres
          obtain ⟨a, ha⟩ := Option.isSome_iff_exists.mp hpres
          rw [assignNames_preserves gen vs m k x a ha]
          rfl
        · have hnew : lookupA (m ++ [(x, gen k)]) x = some (gen k) := by
            rw [lookupA_append_single]
            rename_i hab
            cases hmx : lookupA m x with
            | some ax => rw [hmx] at hab; simp at hab
            | none => simp
          rw [assignNames_preserves gen vs _ _ x (gen k) hnew]
          rfl
      · simp only [assignNames]
        split
        · exact ih m k x hx2
        · exact ih _ _ x hx2

/-- A well-formed variable draw never equals a superglobal, a reserved
keyword or a magic constant: superglobals are shorter than nine
characters or contain an underscore (95, not alphanumeric), keywords
lack the dollar sigil, magic constants start with an underscore. -/
theorem varDraw_not_reserved (b : Bytes) (h : validVarDraw b = true) :
    b ∉ superglobalNames ∧ b ∉ magicConstants ∧ b ∉ reservedKeywords := by
  refine ⟨fun hmem => ?_, fun hmem => ?_, fun hmem => ?_⟩
  · have hall : superglobalNames.all (fun s => !validVarDraw s) = true := by decide
    have := List.all_eq_true.mp hall b hmem
    rw [h] at this
    simp at this
  · have hall : magicConstants.all (fun s => !validVarDraw s) = true := by decide
    have := List.all_eq_true.mp hall b hmem
    rw [h] at this
    simp at this
  · have hall : reservedKeywords.all (fun s => !validVarDraw s) = true := by decide
    have := List.all_eq_true.mp hall b hmem
    rw [h] at this
    simp at this

/-! ### Tampering and reordering change the authenticated text -/

theorem chunksMsg_append (a b : List ChunkRec) :
    chunksMsg (a ++ b) = chunksMsg a ++ chunksMsg b := by
  induction a with
  | nil => rfl
  | cons c t ih => simp [chunksMsg, ih]

theorem chunksMsg_set_ne (pre suf : List ChunkRec) (c c' : ChunkRec)
    (hn : c'.nonce.length = c.nonce.length) (hd : c'.data.length = c.data.length)
    (hne : c'.nonce ≠ c.nonce ∨ c'.data ≠ c.data ∨ c'.tag ≠ c.tag) :
    chunksMsg (pre ++ c' :: suf) ≠ chunksMsg (pre ++ c :: suf) := by
  intro heq
  rw [chunksMsg_append, chunksMsg_append] at heq
  have heq2 := List.append_cancel_left heq
  simp only [chunksMsg] at heq2
  have heq3 := List.append_cancel_right heq2
  rw [List.append_assoc, List.append_assoc] at heq3
  obtain ⟨e1, e2⟩ := List.append_inj heq3 hn
  obtain ⟨e3, e4⟩ := List.append_inj e2 hd
  rcases hne with h | h | h
  exacts [h e1, h e3, h e4]

theorem take_append_le {a : Bytes} (b : Bytes) {n : Nat} (h : n ≤ a.length) :
    (a ++ b).take n = a.take n := by
  rw [List.take_append_eq_append_take]
  have h0 : n - a.length = 0 := by omega
  rw [h0]
  simp

theorem triple_nonce_prefix (c : ChunkRec) :
    (c.nonce ++ c.data ++ c.tag).take c.nonce.length = c.nonce := by
  rw [List.append_assoc, List.take_append_eq_append_take]
  simp

theorem nonce_le_triple (c : ChunkRec) :
    c.nonce.length ≤ (c.nonce ++ c.data ++ c.tag).length := by
  simp only [List.length_append]
  omega

theorem chunksMsg_swap_ne (pre mid suf : List ChunkRec) (ci cj : ChunkRec)
    (hlen : ci.nonce.length = cj.nonce.length) (hne : ci.nonce ≠ cj.nonce) :
    chunksMsg (pre ++ cj :: (mid ++ ci :: suf)) ≠
      chunksMsg (pre ++ ci :: (mid ++ cj :: suf)) := by
  intro heq
  rw [chunksMsg_append, chunksMsg_append] at heq
  have heq2 := List.append_cancel_left heq
  simp only [chunksMsg, chunksMsg_append] at heq2
  apply hne
  rcases le_total (ci.nonce ++ ci.data ++ ci.tag).length
      (cj.nonce ++ cj.data ++ cj.tag).length with hle | hle
  · -- the i-triple is a prefix of the j-triple
    have htk := congrArg (List.take (ci.nonce ++ ci.data ++ ci.tag).length) heq2
    rw [take_append_le _ hle, take_append_le _ (le_refl _), List.take_length] at htk
    -- htk : (cj-triple).take (i-triple).length = ci-triple
    have htk2 := congrArg (List.take ci.nonce.length) htk
    rw [List.take_take, triple_nonce_prefix,
      Nat.min_eq_left (hlen ▸ nonce_le_triple ci)] at htk2
    rw [← htk2, hlen, triple_nonce_prefix]
  · have htk := congrArg (List.take (cj.nonce ++ cj.data ++ cj.tag).length) heq2
    rw [take_append_le _ (le_refl _), List.take_length, take_append_le _ hle] at htk
    -- htk : cj-triple = (ci-triple).take (j-triple).length
    have htk2 := congrArg (List.take cj.nonce.length) htk
    rw [List.take_take, triple_nonce_prefix,
      Nat.min_eq_left (hlen ▸ nonce_le_triple cj)] at htk2
    rw [htk2, ← hlen, triple_nonce_prefix]

/-! ### Decryption on modified chunk lists -/

theorem loop_cases (g : GCM) (key : Bytes) : ∀ l : List ChunkRec,
    (∀ c ∈ l, (base64Decode c.nonce).isSome ∧ (base64Decode c.data).isSome ∧
      (base64Decode c.tag).isSome) →
    (∃ P, decrypt_chunks_loop g key l = Except.ok P) ∨
      decrypt_chunks_loop g key l = Except.error DecErr.cryptoFailure := by
  intro l
  induction l with
  | nil => intro _; exact Or.inl ⟨[], rfl⟩
  | cons c rest ih =>
      intro h
      obtain ⟨h1, h2, h3⟩ := h c (by simp)
      obtain ⟨n, hn⟩ := Option.isSome_iff_exists.mp h1
      obtain ⟨d, hd2⟩ := Option.isSome_iff_exists.mp h2
      obtain ⟨t, ht⟩ := Option.isSome_iff_exists.mp h3
      simp only [decrypt_chunks_loop, hn, hd2, ht]
      cases hdec : g.dec key n t d with
      | none => exact Or.inr rfl
      | some p =>
          rcases ih (fun x hx => h x (by simp [hx])) with ⟨P, hP⟩ | hP
          · exact Or.inl ⟨p ++ P, by rw [hP]⟩
          · exact Or.inr (by rw [hP])

theorem loop_ok_all (g : GCM) (key : Bytes) : ∀ l : List ChunkRec,
    (∀ c ∈ l, ∃ n d t p, base64Decode c.nonce = some n ∧ base64Decode c.data = some d ∧
      base64Decode c.tag = some t ∧ g.dec key n t d = some p) →
    ∃ P, decrypt_chunks_loop g key l = Except.ok P := by
  intro l
  induction l with
  | nil => intro _; exact ⟨[], rfl⟩
  | cons c rest ih =>
      intro h
      obtain ⟨n, d, t, p, hn, hd2, ht, hp⟩ := h c (by simp)
      obtain ⟨P, hP⟩ := ih (fun x hx => h x (by simp [hx]))
      refine ⟨p ++ P, ?_⟩
      simp only [decrypt_chunks_loop, hn, hd2, ht, hp, hP]

theorem verify_false_of_ne (hm : Bytes → Bytes → Bytes) (D fk : Bytes) (l : List ChunkRec)
    (stored : Bytes) (fkf sf : Option Bytes) (hok : ∀ c ∈ l, chunkOK c)
    (hsv : ValidBytes stored) (hne : hm fk (chunksMsg l) ≠ stored) :
    verify_integrity hm D
      ⟨fkf, sf, some (base64Encode stored), some (base64Encode (dumpChunks l))⟩ fk = false := by
  simp only [verify_integrity, base64_roundtrip (dumpChunks l) (dumpChunks_valid l hok),
    jsonLoadsChunks_dump l hok, base64_roundtrip stored hsv]
  exact beq_eq_false_iff_ne.mpr hne

theorem decrypt_data_mismatch (g : GCM) (hm : Bytes → Bytes → Bytes) (fk : Bytes)
    (l : List ChunkRec) (stored : Bytes) (fkf sf : Option Bytes)
    (hok : ∀ c ∈ l, chunkOK c) (hsv : ValidBytes stored)
    (hdecs : ∀ c ∈ l, (base64Decode c.nonce).isSome ∧ (base64Decode c.data).isSome ∧
      (base64Decode c.tag).isSome)
    (hne : hm fk (chunksMsg l) ≠ stored) :
    decrypt_data g hm
        ⟨fkf, sf, some (base64Encode stored), some (base64Encode (dumpChunks l))⟩ fk =
        Except.error DecErr.cryptoFailure ∨
      decrypt_data g hm
        ⟨fkf, sf, some (base64Encode stored), some (base64Encode (dumpChunks l))⟩ fk =
        Except.error DecErr.integrityFailure := by
  rcases loop_cases g fk l hdecs with ⟨P, hP⟩ | hP
  · refine Or.inr ?_
    simp only [decrypt_data, base64_roundtrip (dumpChunks l) (dumpChunks_valid l hok),
      jsonLoadsChunks_dump l hok, hP,
      verify_false_of_ne hm P fk l stored fkf sf hok hsv hne]
    rfl
  · refine Or.inl ?_
    simp only [decrypt_data, base64_roundtrip (dumpChunks l) (dumpChunks_valid l hok),
      jsonLoadsChunks_dump l hok, hP]

theorem decrypt_data_integrity_err (g : GCM) (hm : Bytes → Bytes → Bytes) (fk : Bytes)
    (l : List ChunkRec) (stored : Bytes) (fkf sf : Option Bytes)
    (hok : ∀ c ∈ l, chunkOK c) (hsv : ValidBytes stored)
    (hdecall : ∀ c ∈ l, ∃ n d t p, base64Decode c.nonce = some n ∧
      base64Decode c.data = some d ∧ base64Decode c.tag = some t ∧ g.dec fk n t d = some p)
    (hne : hm fk (chunksMsg l) ≠ stored) :
    decrypt_data g hm
        ⟨fkf, sf, some (base64Encode stored), some (base64Encode (dumpChunks l))⟩ fk =
      Except.error DecErr.integrityFailure := by
  obtain ⟨P, hP⟩ := loop_ok_all g fk l hdecall
  simp only [decrypt_data, base64_roundtrip (dumpChunks l) (dumpChunks_valid l hok),
    jsonLoadsChunks_dump l hok, hP,
    verify_false_of_ne hm P fk l stored fkf sf hok hsv hne]
  rfl

/-! ### Further facts about the encryption output -/

theorem encrypt_chunks_length (g : GCM) (rnd : Nat → Bytes) (data key : Bytes) (cs : Nat) :
    (encrypt_chunks g rnd data key cs).length = (data.length + cs - 1) / cs := by
  simp [encrypt_chunks, pyRange]

theorem encrypt_chunks_indices (g : GCM) (rnd : Nat → Bytes) (data key : Bytes) (cs : Nat)
    (hcs : 0 < cs) :
    (encrypt_chunks g rnd data key cs).map ChunkRec.index =
      List.range ((data.length + cs - 1) / cs) := by
  unfold encrypt_chunks pyRange
  rw [List.map_map, List.map_map]
  conv_rhs => rw [← List.map_id (List.range ((data.length + cs - 1) / cs))]
  apply List.map_congr_left
  intro k _
  show (k * cs) / cs = k
  exact Nat.mul_div_cancel k hcs

theorem pyChunks_lengths (data : Bytes) (cs : Nat) :
    (pyChunks data cs).map List.length =
      (pyRange data.length cs).map (fun i => min cs (data.length - i)) := by
  unfold pyChunks
  rw [List.map_map]
  apply List.map_congr_left
  intro i _
  simp [List.length_take, List.length_drop]

theorem encrypt_chunks_decodable (g : GCM) (rnd : Nat → Bytes) (data key : Bytes) (cs : Nat)
    (hd : ValidBytes data) (hgv : GCM.ValidOut g) (hrnd : RndValid rnd) :
    ∀ c ∈ encrypt_chunks g rnd data key cs,
      (base64Decode c.nonce).isSome ∧ (base64Decode c.data).isSome ∧
        (base64Decode c.tag).isSome := by
  intro c hc
  unfold encrypt_chunks at hc
  obtain ⟨i, _, rfl⟩ := List.mem_map.mp hc
  refine ⟨?_, ?_, ?_⟩
  · rw [base64_roundtrip _ (hrnd (i / cs + 1))]; rfl
  · rw [base64_roundtrip _ (hgv key (rnd (i / cs + 1)) ((data.drop i).take cs)
      (slice_valid hd i cs)).1]; rfl
  · rw [base64_roundtrip _ (hgv key (rnd (i / cs + 1)) ((data.drop i).take cs)
      (slice_valid hd i cs)).2]; rfl

theorem encrypt_chunks_dec_ok (g : GCM) (rnd : Nat → Bytes) (data key : Bytes) (cs : Nat)
    (hd : ValidBytes data) (hgc : GCM.Correct g) (hgv : GCM.ValidOut g) (hrnd : RndValid rnd) :
    ∀ c ∈ encrypt_chunks g rnd data key cs, ∃ n d2 t p,
      base64Decode c.nonce = some n ∧ base64Decode c.data = some d2 ∧
        base64Decode c.tag = some t ∧ g.dec key n t d2 = some p := by
  intro c hc
  unfold encrypt_chunks at hc
  obtain ⟨i, _, rfl⟩ := List.mem_map.mp hc
  refine ⟨rnd (i / cs + 1), (g.enc key (rnd (i / cs + 1)) ((data.drop i).take cs)).1,
    (g.enc key (rnd (i / cs + 1)) ((data.drop i).take cs)).2, (data.drop i).take cs,
    ?_, ?_, ?_, ?_⟩
  · exact base64_roundtrip _ (hrnd (i / cs + 1))
  · exact base64_roundtrip _ (hgv key (rnd (i / cs + 1)) ((data.drop i).take cs)
      (slice_valid hd i cs)).1
  · exact base64_roundtrip _ (hgv key (rnd (i / cs + 1)) ((data.drop i).take cs)
      (slice_valid hd i cs)).2
  · exact hgc key (rnd (i / cs + 1)) ((data.drop i).take cs)

theorem chunksMsg_valid (l : List ChunkRec) (hok : ∀ c ∈ l, chunkOK c) :
    ValidBytes (chunksMsg l) := by
  induction l with
  | nil => intro x hx; simp [chunksMsg] at hx
  | cons c t ih =>
      obtain ⟨_, h2, h3, h4⟩ := hok c (by simp)
      show ValidBytes ((c.nonce ++ c.data ++ c.tag) ++ chunksMsg t)
      exact valid_append (valid_append (valid_append (fieldOK_valid h2) (fieldOK_valid h3))
        (fieldOK_valid h4)) (ih (fun x hx => hok x (by simp [hx])))

/-! ### Extraction and verification on a full artifact -/

set_option maxHeartbeats 4000000 in
theorem extract_fields_core (g : GCM) (rnd : Nat → Bytes) (hm : Bytes → Bytes → Bytes)
    (pbkdf2 : Bytes → Bytes → Nat → Nat → Bytes) (mk salt P F : Bytes) (hhm : HmacValid hm) :
    (extract_decrypt_info (encrypt_file_core g rnd hm pbkdf2 mk salt P F)).integrity_hash =
      some (generate_integrity_hash hm
        (encrypt_chunks g rnd P (generate_file_key pbkdf2 mk F) 8192)
        (generate_file_key pbkdf2 mk F)) ∧
    (extract_decrypt_info (encrypt_file_core g rnd hm pbkdf2 mk salt P F)).chunks =
      some (base64Encode (dumpChunks
        (encrypt_chunks g rnd P (generate_file_key pbkdf2 mk F) 8192))) := by
  have hihB64 : ∀ x ∈ generate_integrity_hash hm
      (encrypt_chunks g rnd P (generate_file_key pbkdf2 mk F) 8192)
      (generate_file_key pbkdf2 mk F), isB64Code x = true := by
    unfold generate_integrity_hash
    exact encode_isB64 _
  have hihne : generate_integrity_hash hm
      (encrypt_chunks g rnd P (generate_file_key pbkdf2 mk F) 8192)
      (generate_file_key pbkdf2 mk F) ≠ [] := by
    unfold generate_integrity_hash
    exact base64Encode_ne_nil (hhm _ _).2
  constructor
  · simp only [extract_decrypt_info]
    unfold encrypt_file_core generate_decryptor
    simp only [List.append_assoc]
    exact scanIntegrity_stub _ _ _ _ (encode_isB64 _) (encode_isB64 _) hihB64 hihne
  · simp only [extract_decrypt_info]
    unfold encrypt_file_core generate_decryptor
    simp only [List.append_assoc]
    exact scanChunks_stub _ _ _ _ (encode_isB64 _) (encode_isB64 _) hihB64 (encode_isB64 _)
      (base64Encode_ne_nil (dumpChunks_ne_nil _))

set_option maxHeartbeats 4000000 in
theorem verify_core (g : GCM) (rnd : Nat → Bytes) (hm : Bytes → Bytes → Bytes)
    (pbkdf2 : Bytes → Bytes → Nat → Nat → Bytes) (mk salt P F D : Bytes) (hhm : HmacValid hm) :
    verify_integrity hm D (extract_decrypt_info (encrypt_file_core g rnd hm pbkdf2 mk salt P F))
      (generate_file_key pbkdf2 mk F) = true := by
  obtain ⟨h1, h2⟩ := extract_fields_core g rnd hm pbkdf2 mk salt P F hhm
  have hok := encrypt_chunks_ok g rnd P (generate_file_key pbkdf2 mk F) 8192
  have hinfoeq : extract_decrypt_info (encrypt_file_core g rnd hm pbkdf2 mk salt P F) =
      ⟨scanExtract markFileKey (encrypt_file_core g rnd hm pbkdf2 mk salt P F),
        scanExtract markSalt (encrypt_file_core g rnd hm pbkdf2 mk salt P F),
        some (generate_integrity_hash hm
          (encrypt_chunks g rnd P (generate_file_key pbkdf2 mk F) 8192)
          (generate_file_key pbkdf2 mk F)),
        some (base64Encode (dumpChunks
          (encrypt_chunks g rnd P (generate_file_key pbkdf2 mk F) 8192)))⟩ := by
    simp only [extract_decrypt_info] at h1 h2 ⊢
    rw [h1, h2]
  rw [hinfoeq]
  simp only [generate_integrity_hash]
  exact verify_integrity_genuine hm D (generate_file_key pbkdf2 mk F) _ _
    (encrypt_chunks g rnd P (generate_file_key pbkdf2 mk F) 8192) hok
    (hhm (generate_file_key pbkdf2 mk F) _).1

/-! ### The iv field is never consulted by decryption -/

/-- Two chunk lists that agree on everything but the `iv` field. -/
def SameExceptIv : List ChunkRec → List ChunkRec → Prop
  | [], [] => True
  | c1 :: t1, c2 :: t2 => c1.nonce = c2.nonce ∧ c1.data = c2.data ∧ c1.tag = c2.tag ∧
      c1.index = c2.index ∧ SameExceptIv t1 t2
  | _, _ => False

theorem loop_same (g : GCM) (key : Bytes) : ∀ l1 l2 : List ChunkRec, SameExceptIv l1 l2 →
    decrypt_chunks_loop g key l1 = decrypt_chunks_loop g key l2 := by
  intro l1
  induction l1 with
  | nil => intro l2 h; cases l2 with
    | nil => rfl
    | cons c t => simp [SameExceptIv] at h
  | cons c1 t1 ih =>
      intro l2 h
      cases l2 with
      | nil => simp [SameExceptIv] at h
      | cons c2 t2 =>
          obtain ⟨h1, h2, h3, _, h5⟩ := h
          simp only [decrypt_chunks_loop, h1, h2, h3, ih t2 h5]

theorem msg_same : ∀ l1 l2 : List ChunkRec, SameExceptIv l1 l2 →
    chunksMsg l1 = chunksMsg l2 := by
  intro l1
  induction l1 with
  | nil => intro l2 h; cases l2 with
    | nil => rfl
    | cons c t => simp [SameExceptIv] at h
  | cons c1 t1 ih =>
      intro l2 h
      cases l2 with
      | nil => simp [SameExceptIv] at h
      | cons c2 t2 =>
          obtain ⟨h1, h2, h3, _, h5⟩ := h
          simp only [chunksMsg, h1, h2, h3, ih t2 h5]

/-! ## Concrete instances of the library primitives, used to exercise
the theorems on explicit inputs -/

/-- A small AEAD meeting the stated contracts: the ciphertext equals the
plaintext and the tag is the constant `[0]`; decryption accepts exactly
that tag. -/
def gT : GCM :=
  { enc := fun _ _ p => (p, [0])
    dec := fun _ _ t c => if t = [0] then some c else none }

/-- A 12-byte random stream with pairwise distinct draws. -/
def rndT : Nat → Bytes := fun i => List.replicate 11 0 ++ [i % 256]

/-- A constant MAC (nonempty, genuine bytes). -/
def hmT : Bytes → Bytes → Bytes := fun _ _ => [1]

/-- A MAC that is injective on genuine byte strings. -/
def hmV : Bytes → Bytes → Bytes := fun _ m => m.map (fun x => x % 256)

/-- A small key-derivation function. -/
def pbT : Bytes → Bytes → Nat → Nat → Bytes := fun _ _ _ _ => [9]

theorem gT_correct : GCM.Correct gT := fun _ _ _ => rfl

theorem gT_validOut : GCM.ValidOut gT :=
  fun _ _ _ hp => ⟨hp, by intro x hx; simp [gT] at hx; omega⟩

theorem rndT_valid : RndValid rndT := by
  intro i x hx
  simp [rndT] at hx
  rcases hx with h | h <;> omega

theorem hmT_valid : HmacValid hmT :=
  fun _ _ => ⟨by intro x hx; simp [hmT] at hx; omega, by simp [hmT]⟩

theorem hmV_valid_out : ∀ k m, ValidBytes (hmV k m) := by
  intro k m x hx
  simp [hmV] at hx
  obtain ⟨y, _, rfl⟩ := hx
  omega

theorem map_mod_id {m : Bytes} (h : ValidBytes m) : m.map (fun x => x % 256) = m := by
  induction m with
  | nil => rfl
  | cons a t ih =>
      have ha : a % 256 = a := Nat.mod_eq_of_lt (h a (by simp))
      simp only [List.map_cons, ha]
      rw [ih (fun x hx => h x (by simp [hx]))]

theorem hmV_inj (k : Bytes) : ∀ m1 m2, ValidBytes m1 → ValidBytes m2 →
    hmV k m1 = hmV k m2 → m1 = m2 := by
  intro m1 m2 h1 h2 he
  unfold hmV at he
  rwa [map_mod_id h1, map_mod_id h2] at he

/-! ## The claims -/

/-- C1: Round trip.  For every plaintext byte sequence P, file
identifier F and master key K, decrypting the artifact produced by
encrypting P under (K, F) with the same (K, F) restores exactly P.  The
hypotheses are the library contracts: AES-GCM decryption inverts
encryption and yields genuine bytes on genuine input, `token_bytes`
yields genuine bytes, HMAC digests are nonempty genuine bytes. -/
theorem C1_round_trip (g : GCM) (rnd : Nat → Bytes) (hm : Bytes → Bytes → Bytes)
    (pbkdf2 : Bytes → Bytes → Nat → Nat → Bytes) (K salt P F : Bytes)
    (hP : ValidBytes P) (hgc : GCM.Correct g) (hgv : GCM.ValidOut g)
    (hrnd : RndValid rnd) (hhm : HmacValid hm) :
    decrypt_file_core g hm pbkdf2 K
      (encrypt_file_core g rnd hm pbkdf2 K salt P F) F = Except.ok P :=
  roundtrip_core g rnd hm pbkdf2 K salt P F hP hgc hgv hrnd hhm

theorem C1_round_trip_witness :
    decrypt_file_core gT hmT pbT [7]
      (encrypt_file_core gT rndT hmT pbT [7] [5] [10, 255, 0] [97, 46, 112, 104, 112])
      [97, 46, 112, 104, 112] = Except.ok [10, 255, 0] :=
  C1_round_trip gT rndT hmT pbT [7] [5] [10, 255, 0] [97, 46, 112, 104, 112]
    (by decide) gT_correct gT_validOut rndT_valid hmT_valid

/-- Modelled from the spec: the HMAC input that claim C3 asserts, namely
the concatenation of each chunk's raw binary nonce, ciphertext and tag
taken in index order (nonce0, ciphertext0, tag0, nonce1, ...). -/
def integrityMessageRawSpec (g : GCM) (rnd : Nat → Bytes) (data key : Bytes) (cs : Nat) :
    Bytes :=
  (pyRange data.length cs).foldr (fun i acc =>
    rnd (i / cs + 1) ++ (g.enc key (rnd (i / cs + 1)) ((data.drop i).take cs)).1 ++
      (g.enc key (rnd (i / cs + 1)) ((data.drop i).take cs)).2 ++ acc) []

/-- C3 counterexample: the embedded integrity tag is not the HMAC of the
raw binary values.  At this concrete input (one chunk, the injective MAC
`hmV`), `_generate_integrity_hash` differs from the raw-binary formula
the claim states: the code concatenates the base64 *text* fields, not
the raw bytes. -/
theorem C3_counterexample :
    generate_integrity_hash hmV (encrypt_chunks gT rndT [1, 2] [0] 8192) [0] ≠
      base64Encode (hmV [0] (integrityMessageRawSpec gT rndT [1, 2] [0] 8192)) := by
  decide

/-- C3 (amended): the embedded IntegrityTag equals base64 of
HMAC-SHA256 keyed by the FileKey over the concatenation of each chunk's
base64-encoded nonce, ciphertext and tag text fields taken in list
order, and `_verify_integrity` recomputes the tag over the same
concatenation, accepting the genuine artifact. -/
theorem C3_amended_integrity_tag (g : GCM) (rnd : Nat → Bytes) (hm : Bytes → Bytes → Bytes)
    (pbkdf2 : Bytes → Bytes → Nat → Nat → Bytes) (K salt P F D : Bytes)
    (hhm : HmacValid hm) :
    (extract_decrypt_info (encrypt_file_core g rnd hm pbkdf2 K salt P F)).integrity_hash =
      some (base64Encode (hm (generate_file_key pbkdf2 K F)
        (chunksMsg (encrypt_chunks g rnd P (generate_file_key pbkdf2 K F) 8192)))) ∧
    verify_integrity hm D (extract_decrypt_info (encrypt_file_core g rnd hm pbkdf2 K salt P F))
      (generate_file_key pbkdf2 K F) = true :=
  ⟨(extract_fields_core g rnd hm pbkdf2 K salt P F hhm).1,
    verify_core g rnd hm pbkdf2 K salt P F D hhm⟩

theorem C3_amended_integrity_tag_witness :
    (extract_decrypt_info (encrypt_file_core gT rndT hmT pbT [7] [5] [1, 2] [102])).integrity_hash =
      some (base64Encode (hmT (generate_file_key pbT [7] [102])
        (chunksMsg (encrypt_chunks gT rndT [1, 2] (generate_file_key pbT [7] [102]) 8192)))) ∧
    verify_integrity hmT [3] (extract_decrypt_info (encrypt_file_core gT rndT hmT pbT [7] [5] [1, 2] [102]))
      (generate_file_key pbT [7] [102]) = true :=
  C3_amended_integrity_tag gT rndT hmT pbT [7] [5] [1, 2] [102] [3] hmT_valid

/-- The derivation formula in the words of the spec: PBKDF2-HMAC-SHA256
with password the master key, salt the base name of the file identifier,
1000 iterations, 32 bytes of output. -/
def fileKeySpec (pbkdf2 : Bytes → Bytes → Nat → Nat → Bytes)
    (master_key file_identifier : Bytes) : Bytes :=
  pbkdf2 master_key (basenameB file_identifier) 1000 32

/-- C4: file key derivation.  `generate_file_key` is the pure function
PBKDF2(master key, basename(file identifier), 1000, 32), so identical
(master key, base name) pairs yield the identical file key regardless of
directory. -/
theorem C4_file_key_derivation (pbkdf2 : Bytes → Bytes → Nat → Nat → Bytes)
    (K p q : Bytes) (hbase : basenameB p = basenameB q) :
    (∀ mk f, generate_file_key pbkdf2 mk f = fileKeySpec pbkdf2 mk f) ∧
      generate_file_key pbkdf2 K p = generate_file_key pbkdf2 K q := by
  refine ⟨fun mk f => rfl, ?_⟩
  unfold generate_file_key
  rw [hbase]

theorem C4_file_key_derivation_witness :
    (∀ mk f, generate_file_key pbT mk f = fileKeySpec pbT mk f) ∧
      generate_file_key pbT [1] [97, 47, 120, 46, 112, 104, 112] =
        generate_file_key pbT [1] [98, 98, 47, 120, 46, 112, 104, 112] :=
  C4_file_key_derivation pbT [1] [97, 47, 120, 46, 112, 104, 112]
    [98, 98, 47, 120, 46, 112, 104, 112] (by decide)

/-- C5: chunking.  Encryption splits the plaintext into consecutive
`chunk_size` segments in order whose concatenation is the plaintext, the
chunk count is the ceiling of length over chunk size, each record's
index field is its segment position; concretely, a 20000-byte input with
the default 8192 chunking yields three segments of lengths 8192, 8192
and 3616, and decryption restores all 20000 bytes. -/
theorem C5_chunking (g : GCM) (rnd : Nat → Bytes) (hm : Bytes → Bytes → Bytes)
    (pbkdf2 : Bytes → Bytes → Nat → Nat → Bytes) (K salt F key data : Bytes) (cs : Nat)
    (hcs : 0 < cs) (hgc : GCM.Correct g) (hgv : GCM.ValidOut g) (hrnd : RndValid rnd)
    (hhm : HmacValid hm) :
    ((pyChunks data cs).foldr (· ++ ·) [] = data ∧
      (pyChunks data cs).length = (data.length + cs - 1) / cs ∧
      (encrypt_chunks g rnd data key cs).length = (data.length + cs - 1) / cs ∧
      (encrypt_chunks g rnd data key cs).map ChunkRec.index =
        List.range ((data.length + cs - 1) / cs)) ∧
    ((pyChunks (List.replicate 20000 0) 8192).map List.length = [8192, 8192, 3616] ∧
      decrypt_file_core g hm pbkdf2 K
        (encrypt_file_core g rnd hm pbkdf2 K salt (List.replicate 20000 0) F) F =
        Except.ok (List.replicate 20000 0)) := by
  refine ⟨⟨pyChunks_join data cs hcs, pyChunks_length data cs,
    encrypt_chunks_length g rnd data key cs, encrypt_chunks_indices g rnd data key cs hcs⟩,
    ?_, ?_⟩
  · rw [pyChunks_lengths]
    simp only [List.length_replicate]
    decide
  · exact roundtrip_core g rnd hm pbkdf2 K salt _ F
      (by intro b hb; rw [List.eq_of_mem_replicate hb]; omega) hgc hgv hrnd hhm

theorem C5_chunking_witness :
    (((pyChunks [1, 2, 3, 4] 3).foldr (· ++ ·) [] = [1, 2, 3, 4] ∧
      (pyChunks [1, 2, 3, 4] 3).length = (([1, 2, 3, 4] : Bytes).length + 3 - 1) / 3 ∧
      (encrypt_chunks gT rndT [1, 2, 3, 4] [0] 3).length =
        (([1, 2, 3, 4] : Bytes).length + 3 - 1) / 3 ∧
      (encrypt_chunks gT rndT [1, 2, 3, 4] [0] 3).map ChunkRec.index =
        List.range ((([1, 2, 3, 4] : Bytes).length + 3 - 1) / 3)) ∧
    ((pyChunks (List.replicate 20000 0) 8192).map List.length = [8192, 8192, 3616] ∧
      decrypt_file_core gT hmT pbT [7]
        (encrypt_file_core gT rndT hmT pbT [7] [5] (List.replicate 20000 0) [102]) [102] =
        Except.ok (List.replicate 20000 0))) :=
  C5_chunking gT rndT hmT pbT [7] [5] [102] [0] [1, 2, 3, 4] 3 (by decide)
    gT_correct gT_validOut rndT_valid hmT_valid

/-- C2: tamper sensitivity.  Take any artifact chunk list produced by
encryption and replace one chunk's stored nonce, ciphertext or tag field
by a different same-length value (the stored image of any raw bit flip),
leaving the other fields intact.  Decrypting with the artifact's own
integrity tag then fails at the AES-GCM authentication step or at the
HMAC integrity step; it never returns plaintext.  Hypotheses: the bytes
contracts of the primitives and collision-freedom of HMAC-SHA256 on
genuine byte strings under this key. -/
theorem C2_tamper_sensitivity (g : GCM) (hm : Bytes → Bytes → Bytes) (rnd : Nat → Bytes)
    (fk P : Bytes) (cs : Nat) (pre suf : List ChunkRec) (c c' : ChunkRec)
    (fkf sf : Option Bytes)
    (hP : ValidBytes P) (hgv : GCM.ValidOut g) (hrnd : RndValid rnd)
    (hhmv : ∀ k m, ValidBytes (hm k m))
    (hinj : ∀ m1 m2, ValidBytes m1 → ValidBytes m2 → hm fk m1 = hm fk m2 → m1 = m2)
    (hsplit : encrypt_chunks g rnd P fk cs = pre ++ c :: suf)
    (hiv : c'.iv = c.iv) (hidx : c'.index = c.index)
    (htam : (c'.data = c.data ∧ c'.tag = c.tag ∧ c'.nonce ≠ c.nonce ∧
        c'.nonce.length = c.nonce.length ∧ fieldOK c'.nonce ∧
        (base64Decode c'.nonce).isSome) ∨
      (c'.nonce = c.nonce ∧ c'.tag = c.tag ∧ c'.data ≠ c.data ∧
        c'.data.length = c.data.length ∧ fieldOK c'.data ∧
        (base64Decode c'.data).isSome) ∨
      (c'.nonce = c.nonce ∧ c'.data = c.data ∧ c'.tag ≠ c.tag ∧
        fieldOK c'.tag ∧ (base64Decode c'.tag).isSome)) :
    decrypt_data g hm ⟨fkf, sf,
        some (generate_integrity_hash hm (pre ++ c :: suf) fk),
        some (base64Encode (dumpChunks (pre ++ c' :: suf)))⟩ fk =
      Except.error DecErr.cryptoFailure ∨
    decrypt_data g hm ⟨fkf, sf,
        some (generate_integrity_hash hm (pre ++ c :: suf) fk),
        some (base64Encode (dumpChunks (pre ++ c' :: suf)))⟩ fk =
      Except.error DecErr.integrityFailure := by
  have hmemOrig : ∀ x ∈ pre ++ c :: suf, x ∈ encrypt_chunks g rnd P fk cs := by
    intro x hx; rw [hsplit]; exact hx
  have hOkEnc := encrypt_chunks_ok g rnd P fk cs
  have hDecEnc := encrypt_chunks_decodable g rnd P fk cs hP hgv hrnd
  have hcmem : c ∈ pre ++ c :: suf := by simp
  obtain ⟨hiv0, hn0, hd0, ht0⟩ := hOkEnc c (hmemOrig c hcmem)
  have hc'ok : chunkOK c' := by
    rcases htam with ⟨e1, e2, _, _, hf, _⟩ | ⟨e1, e2, _, _, hf, _⟩ | ⟨e1, e2, _, hf, _⟩
    · exact ⟨by rw [hiv]; exact hiv0, hf, by rw [e1]; exact hd0, by rw [e2]; exact ht0⟩
    · exact ⟨by rw [hiv]; exact hiv0, by rw [e1]; exact hn0, hf, by rw [e2]; exact ht0⟩
    · exact ⟨by rw [hiv]; exact hiv0, by rw [e1]; exact hn0, by rw [e2]; exact hd0, hf⟩
  have hok2 : ∀ x ∈ pre ++ c' :: suf, chunkOK x := by
    intro x hx
    rcases List.mem_append.mp hx with h | h
    · exact hOkEnc x (hmemOrig x (List.mem_append_left _ h))
    · rcases List.mem_cons.mp h with rfl | h2
      · exact hc'ok
      · exact hOkEnc x (hmemOrig x (List.mem_append_right _ (List.mem_cons_of_mem _ h2)))
  obtain ⟨hcn, hcd, hct⟩ := hDecEnc c (hmemOrig c hcmem)
  have hdec2 : ∀ x ∈ pre ++ c' :: suf, (base64Decode x.nonce).isSome ∧
      (base64Decode x.data).isSome ∧ (base64Decode x.tag).isSome := by
    intro x hx
    rcases List.mem_append.mp hx with h | h
    · exact hDecEnc x (hmemOrig x (List.mem_append_left _ h))
    · rcases List.mem_cons.mp h with rfl | h2
      · rcases htam with ⟨e1, e2, _, _, _, hs⟩ | ⟨e1, e2, _, _, _, hs⟩ | ⟨e1, e2, _, _, hs⟩
        · exact ⟨hs, by rw [e1]; exact hcd, by rw [e2]; exact hct⟩
        · exact ⟨by rw [e1]; exact hcn, hs, by rw [e2]; exact hct⟩
        · exact ⟨by rw [e1]; exact hcn, by rw [e2]; exact hcd, hs⟩
      · exact hDecEnc x (hmemOrig x (List.mem_append_right _ (List.mem_cons_of_mem _ h2)))
  have hmsgne : chunksMsg (pre ++ c' :: suf) ≠ chunksMsg (pre ++ c :: suf) := by
    apply chunksMsg_set_ne
    · rcases htam with ⟨_, _, _, hl, _, _⟩ | ⟨e1, _, _, _, _, _⟩ | ⟨e1, _, _, _, _⟩
      · exact hl
      · rw [e1]
      · rw [e1]
    · rcases htam with ⟨e1, _, _, _, _, _⟩ | ⟨_, _, _, hl, _, _⟩ | ⟨_, e2, _, _, _⟩
      · rw [e1]
      · exact hl
      · rw [e2]
    · rcases htam with ⟨_, _, hne, _, _, _⟩ | ⟨_, _, hne, _, _, _⟩ | ⟨_, _, hne, _, _⟩
      · exact Or.inl hne
      · exact Or.inr (Or.inl hne)
      · exact Or.inr (Or.inr hne)
  have hval1 : ValidBytes (chunksMsg (pre ++ c' :: suf)) := chunksMsg_valid _ hok2
  have hval2 : ValidBytes (chunksMsg (pre ++ c :: suf)) := by
    apply chunksMsg_valid
    intro x hx
    exact hOkEnc x (hmemOrig x hx)
  have hfinal : hm fk (chunksMsg (pre ++ c' :: suf)) ≠ hm fk (chunksMsg (pre ++ c :: suf)) :=
    fun he => hmsgne (hinj _ _ hval1 hval2 he)
  exact decrypt_data_mismatch g hm fk (pre ++ c' :: suf)
    (hm fk (chunksMsg (pre ++ c :: suf))) fkf sf hok2 (hhmv _ _) hdec2 hfinal

theorem C2_tamper_sensitivity_witness :
    decrypt_data gT hmV ⟨none, none,
        some (generate_integrity_hash hmV
          [⟨base64Encode (rndT 0), base64Encode (rndT 1), base64Encode [1, 2, 3],
              base64Encode [0], 0⟩,
            ⟨base64Encode (rndT 0), base64Encode (rndT 2), base64Encode [4, 5, 6],
              base64Encode [0], 1⟩] [0]),
        some (base64Encode (dumpChunks
          [⟨base64Encode (rndT 0), base64Encode (rndT 5), base64Encode [1, 2, 3],
              base64Encode [0], 0⟩,
            ⟨base64Encode (rndT 0), base64Encode (rndT 2), base64Encode [4, 5, 6],
              base64Encode [0], 1⟩]))⟩ [0] =
      Except.error DecErr.cryptoFailure ∨
    decrypt_data gT hmV ⟨none, none,
        some (generate_integrity_hash hmV
          [⟨base64Encode (rndT 0), base64Encode (rndT 1), base64Encode [1, 2, 3],
              base64Encode [0], 0⟩,
            ⟨base64Encode (rndT 0), base64Encode (rndT 2), base64Encode [4, 5, 6],
              base64Encode [0], 1⟩] [0]),
        some (base64Encode (dumpChunks
          [⟨base64Encode (rndT 0), base64Encode (rndT 5), base64Encode [1, 2, 3],
              base64Encode [0], 0⟩,
            ⟨base64Encode (rndT 0), base64Encode (rndT 2), base64Encode [4, 5, 6],
              base64Encode [0], 1⟩]))⟩ [0] =
      Except.error DecErr.integrityFailure := by
  have h := C2_tamper_sensitivity gT hmV rndT [0] [1, 2, 3, 4, 5, 6] 3 []
    [⟨base64Encode (rndT 0), base64Encode (rndT 2), base64Encode [4, 5, 6],
        base64Encode [0], 1⟩]
    ⟨base64Encode (rndT 0), base64Encode (rndT 1), base64Encode [1, 2, 3],
      base64Encode [0], 0⟩
    ⟨base64Encode (rndT 0), base64Encode (rndT 5), base64Encode [1, 2, 3],
      base64Encode [0], 0⟩
    none none (by decide) gT_validOut rndT_valid hmV_valid_out
    (fun m1 m2 h1 h2 he => hmV_inj [0] m1 m2 h1 h2 he)
    (by decide) rfl rfl
    (Or.inl ⟨rfl, rfl, by decide, by decide, by decide, by decide⟩)
  simpa using h

/-- C6: order sensitivity.  Swapping the positions of two chunks of an
encryption-produced artifact (each chunk left intact and individually
valid) makes integrity verification fail, and decryption of the permuted
chunk list ends in the integrity failure, never in a success result.
The two stored nonce fields differ and have equal length (nonces are
fresh same-length draws); HMAC is collision-free on genuine byte strings
under this key. -/
theorem C6_order_sensitivity (g : GCM) (hm : Bytes → Bytes → Bytes) (rnd : Nat → Bytes)
    (fk P D : Bytes) (cs : Nat) (pre mid suf : List ChunkRec) (ci cj : ChunkRec)
    (fkf sf : Option Bytes)
    (hP : ValidBytes P) (hgc : GCM.Correct g) (hgv : GCM.ValidOut g) (hrnd : RndValid rnd)
    (hhmv : ∀ k m, ValidBytes (hm k m))
    (hinj : ∀ m1 m2, ValidBytes m1 → ValidBytes m2 → hm fk m1 = hm fk m2 → m1 = m2)
    (hsplit : encrypt_chunks g rnd P fk cs = pre ++ ci :: (mid ++ cj :: suf))
    (hnlen : ci.nonce.length = cj.nonce.length) (hnne : ci.nonce ≠ cj.nonce) :
    verify_integrity hm D ⟨fkf, sf,
        some (generate_integrity_hash hm (pre ++ ci :: (mid ++ cj :: suf)) fk),
        some (base64Encode (dumpChunks (pre ++ cj :: (mid ++ ci :: suf))))⟩ fk = false ∧
    decrypt_data g hm ⟨fkf, sf,
        some (generate_integrity_hash hm (pre ++ ci :: (mid ++ cj :: suf)) fk),
        some (base64Encode (dumpChunks (pre ++ cj :: (mid ++ ci :: suf))))⟩ fk =
      Except.error DecErr.integrityFailure := by
  have hmem : ∀ x ∈ pre ++ cj :: (mid ++ ci :: suf), x ∈ encrypt_chunks g rnd P fk cs := by
    intro x hx
    rw [hsplit]
    simp only [List.mem_append, List.mem_cons] at hx ⊢
    tauto
  have hOkEnc := encrypt_chunks_ok g rnd P fk cs
  have hok2 : ∀ x ∈ pre ++ cj :: (mid ++ ci :: suf), chunkOK x :=
    fun x hx => hOkEnc x (hmem x hx)
  have hokOrig : ∀ x ∈ pre ++ ci :: (mid ++ cj :: suf), chunkOK x := by
    intro x hx
    apply hOkEnc
    rw [hsplit]
    exact hx
  have hDecAll := encrypt_chunks_dec_ok g rnd P fk cs hP hgc hgv hrnd
  have hdec2 : ∀ x ∈ pre ++ cj :: (mid ++ ci :: suf), ∃ n d2 t p,
      base64Decode x.nonce = some n ∧ base64Decode x.data = some d2 ∧
        base64Decode x.tag = some t ∧ g.dec fk n t d2 = some p :=
    fun x hx => hDecAll x (hmem x hx)
  have hmsgne : chunksMsg (pre ++ cj :: (mid ++ ci :: suf)) ≠
      chunksMsg (pre ++ ci :: (mid ++ cj :: suf)) :=
    chunksMsg_swap_ne pre mid suf ci cj hnlen hnne
  have hfinal : hm fk (chunksMsg (pre ++ cj :: (mid ++ ci :: suf))) ≠
      hm fk (chunksMsg (pre ++ ci :: (mid ++ cj :: suf))) :=
    fun he => hmsgne (hinj _ _ (chunksMsg_valid _ hok2) (chunksMsg_valid _ hokOrig) he)
  constructor
  · exact verify_false_of_ne hm D fk (pre ++ cj :: (mid ++ ci :: suf))
      (hm fk (chunksMsg (pre ++ ci :: (mid ++ cj :: suf)))) fkf sf hok2 (hhmv _ _) hfinal
  · exact decrypt_data_integrity_err g hm fk (pre ++ cj :: (mid ++ ci :: suf))
      (hm fk (chunksMsg (pre ++ ci :: (mid ++ cj :: suf)))) fkf sf hok2 (hhmv _ _)
      hdec2 hfinal

theorem C6_order_sensitivity_witness :
    verify_integrity hmV [9] ⟨none, none,
        some (generate_integrity_hash hmV
          [⟨base64Encode (rndT 0), base64Encode (rndT 1), base64Encode [1, 2, 3],
              base64Encode [0], 0⟩,
            ⟨base64Encode (rndT 0), base64Encode (rndT 2), base64Encode [4, 5, 6],
              base64Encode [0], 1⟩] [0]),
        some (base64Encode (dumpChunks
          [⟨base64Encode (rndT 0), base64Encode (rndT 2), base64Encode [4, 5, 6],
              base64Encode [0], 1⟩,
            ⟨base64Encode (rndT 0), base64Encode (rndT 1), base64Encode [1, 2, 3],
              base64Encode [0], 0⟩]))⟩ [0] = false ∧
    decrypt_data gT hmV ⟨none, none,
        some (generate_integrity_hash hmV
          [⟨base64Encode (rndT 0), base64Encode (rndT 1), base64Encode [1, 2, 3],
              base64Encode [0], 0⟩,
            ⟨base64Encode (rndT 0), base64Encode (rndT 2), base64Encode [4, 5, 6],
              base64Encode [0], 1⟩] [0]),
        some (base64Encode (dumpChunks
          [⟨base64Encode (rndT 0), base64Encode (rndT 2), base64Encode [4, 5, 6],
              base64Encode [0], 1⟩,
            ⟨base64Encode (rndT 0), base64Encode (rndT 1), base64Encode [1, 2, 3],
              base64Encode [0], 0⟩]))⟩ [0] = Except.error DecErr.integrityFailure := by
  have h := C6_order_sensitivity gT hmV rndT [0] [1, 2, 3, 4, 5, 6] [9] 3 [] [] []
    ⟨base64Encode (rndT 0), base64Encode (rndT 1), base64Encode [1, 2, 3],
      base64Encode [0], 0⟩
    ⟨base64Encode (rndT 0), base64Encode (rndT 2), base64Encode [4, 5, 6],
      base64Encode [0], 1⟩
    none none (by decide) gT_correct gT_validOut rndT_valid hmV_valid_out
    (fun m1 m2 h1 h2 he => hmV_inj [0] m1 m2 h1 h2 he)
    (by decide) (by decide) (by decide)
  simpa using h

/-- A stream of draws that repeats the same well-formed variable name, a
possible outcome of `_generate_obfuscated_name`'s unchecked random
choice. -/
def genConst : Nat → Bytes := fun _ => [36, 97, 97, 97, 97, 97, 97, 97, 97]

/-- C7 counterexample: `_generate_obfuscated_name` does not retry on
collision.  When two successive draws coincide (both the well-formed
variable name dollar-aaaaaaaa), the two distinct identifiers dollar-x
and dollar-y receive the same alias in the variable namespace, so the
generated mapping is not injective. -/
theorem C7_counterexample :
    lookupA (assignNames genConst [[36, 120], [36, 121]] ([], 0)).1 [36, 120] =
        some [36, 97, 97, 97, 97, 97, 97, 97, 97] ∧
      lookupA (assignNames genConst [[36, 120], [36, 121]] ([], 0)).1 [36, 121] =
        some [36, 97, 97, 97, 97, 97, 97, 97, 97] ∧
      ([36, 120] : Bytes) ≠ [36, 121] ∧
      validVarDraw (genConst 0) = true ∧ validVarDraw (genConst 1) = true := by
  decide

/-- C7 (amended): alias generation performs no collision retry and no
reserved-name check; the mapping built over any identifier list is
injective within the namespace provided the underlying random draws are
pairwise distinct, and a well-formed variable draw (dollar sigil plus 8
to 12 alphanumerics) can never equal a superglobal, reserved keyword or
magic constant.  Function and class aliases are not checked against
keywords. -/
theorem C7_alias_injectivity (gen : Nat → Bytes) (hg : Function.Injective gen)
    (vars : List Bytes) (b : Bytes) (hb : validVarDraw b = true) :
    MapInj (assignNames gen vars ([], 0)).1 ∧
      b ∉ superglobalNames ∧ b ∉ magicConstants ∧ b ∉ reservedKeywords := by
  obtain ⟨h1, h2, h3⟩ := varDraw_not_reserved b hb
  refine ⟨?_, h1, h2, h3⟩
  exact (assignNames_inj gen hg vars [] 0 (fun p hp => absurd hp (List.not_mem_nil p))
    (fun x y a hx _ => by simp [lookupA] at hx)).2

theorem C7_alias_injectivity_witness :
    MapInj (assignNames (fun i => 36 :: List.replicate (i + 9) 97)
        [[36, 120], [36, 121]] ([], 0)).1 ∧
      ([36, 98, 98, 98, 98, 98, 98, 98, 98] : Bytes) ∉ superglobalNames ∧
      ([36, 98, 98, 98, 98, 98, 98, 98, 98] : Bytes) ∉ magicConstants ∧
      ([36, 98, 98, 98, 98, 98, 98, 98, 98] : Bytes) ∉ reservedKeywords :=
  C7_alias_injectivity (fun i => 36 :: List.replicate (i + 9) 97)
    (fun a b h => by
      have hl := congrArg List.length h
      simp at hl
      exact hl)
    [[36, 120], [36, 121]] [36, 98, 98, 98, 98, 98, 98, 98, 98] (by decide)

/-- The chunk list of a small genuine encryption, used to build an
artifact lacking the fileKey field. -/
def chunksC8 : List ChunkRec := encrypt_chunks gT rndT [7, 8] [0] 8192

/-- An artifact text whose fileKey field line is absent while the salt,
integrityHash and chunks lines are present and mutually consistent. -/
def artifactC8 : Bytes :=
  stubHead ++ markSalt ++ base64Encode [5] ++
    sepLine ++ markIntegrity ++ generate_integrity_hash hmT chunksC8 [0] ++
    sepLine ++ markChunks ++ base64Encode (dumpChunks chunksC8) ++ [39, 59, 10]

set_option maxRecDepth 10000 in
set_option maxHeartbeats 4000000 in
/-- C8 counterexample: an artifact missing the fileKey field does not
make field extraction fail - the entry is merely `None` - and decryption
nevertheless succeeds, because `_decrypt_data` never reads that field.
This contradicts the claim that a missing required field yields a
FormatError before any chunk decryption. -/
theorem C8_counterexample :
    (extract_decrypt_info artifactC8).file_key = none ∧
      decrypt_data gT hmT (extract_decrypt_info artifactC8) [0] = Except.ok [7, 8] :=
  ⟨rfl, rfl⟩

/-- C8 (amended): `_extract_decrypt_info` never raises - a missing or
malformed field is a `None` entry - and `_decrypt_data` consults only
the chunks and integrityHash entries, so inputs agreeing on those two
decrypt identically (in particular an artifact missing fileKey or salt
decrypts normally), while a missing chunks entry fails inside
`_decrypt_data` on the TypeError path of the generic decryption failure
before any chunk work, not with a distinct FormatError class. -/
theorem C8_missing_fields (g : GCM) (hm : Bytes → Bytes → Bytes)
    (info info2 : DecryptInfo) (fk : Bytes)
    (hch : info.chunks = info2.chunks) (hih : info.integrity_hash = info2.integrity_hash) :
    (info.chunks = none → decrypt_data g hm info fk = Except.error DecErr.missingChunks) ∧
      decrypt_data g hm info fk = decrypt_data g hm info2 fk := by
  constructor
  · intro h
    simp [decrypt_data, h]
  · unfold decrypt_data verify_integrity
    rw [hch, hih]

theorem C8_missing_fields_witness :
    ((⟨some [1], none, some [2], some [3]⟩ : DecryptInfo).chunks = none →
      decrypt_data gT hmT ⟨some [1], none, some [2], some [3]⟩ [0] =
        Except.error DecErr.missingChunks) ∧
    decrypt_data gT hmT ⟨some [1], none, some [2], some [3]⟩ [0] =
      decrypt_data gT hmT ⟨none, some [7], some [2], some [3]⟩ [0] :=
  C8_missing_fields gT hmT ⟨some [1], none, some [2], some [3]⟩
    ⟨none, some [7], some [2], some [3]⟩ [0] rfl rfl

/-- C9: write-once mapping.  Within one obfuscator instance, an
identifier that already has an alias keeps exactly that alias through
any later obfuscation pass, in each of the three namespaces (the maps
only grow and existing entries are never overwritten), while every
identifier of an enabled category listed in the pass ends up with an
alias. -/
theorem C9_write_once (gen : Nat → Bytes) (st : ObfState)
    (vars funcs classNames : List Bytes) (ov fe ce : Bool) (x a : Bytes) :
    (lookupA st.variable_map x = some a →
      lookupA (obfuscatePass gen st vars funcs classNames ov fe ce).variable_map x = some a) ∧
    (lookupA st.function_map x = some a →
      lookupA (obfuscatePass gen st vars funcs classNames ov fe ce).function_map x = some a) ∧
    (lookupA st.class_map x = some a →
      lookupA (obfuscatePass gen st vars funcs classNames ov fe ce).class_map x = some a) ∧
    (ov = true → x ∈ vars →
      (lookupA (obfuscatePass gen st vars funcs classNames ov fe ce).variable_map x).isSome) ∧
    (fe = true → x ∈ funcs →
      (lookupA (obfuscatePass gen st vars funcs classNames ov fe ce).function_map x).isSome) ∧
    (ce = true → x ∈ classNames →
      (lookupA (obfuscatePass gen st vars funcs classNames ov fe ce).class_map x).isSome) := by
  refine ⟨?_, ?_, ?_, ?_, ?_, ?_⟩
  · intro h
    show lookupA (if ov then assignNames gen vars (st.variable_map, st.drawn)
        else (st.variable_map, st.drawn)).1 x = some a
    cases ov
    · exact h
    · exact assignNames_preserves gen vars st.variable_map st.drawn x a h
  · intro h
    cases fe
    · exact h
    · exact assignNames_preserves gen funcs st.function_map _ x a h
  · intro h
    cases ce
    · exact h
    · exact assignNames_preserves gen classNames st.class_map _ x a h
  · intro hov hx
    subst hov
    exact assignNames_covers gen vars st.variable_map st.drawn x hx
  · intro hfe hx
    subst hfe
    exact assignNames_covers gen funcs st.function_map _ x hx
  · intro hce hx
    subst hce
    exact assignNames_covers gen classNames st.class_map _ x hx

theorem C9_write_once_witness :
    lookupA (obfuscatePass genConst ⟨[([36, 97], [36, 98])], [], [], 1⟩
        [[36, 97], [36, 99]] [[102]] [[99]] true true true).variable_map [36, 97] =
      some [36, 98] ∧
    (lookupA (obfuscatePass genConst ⟨[([36, 97], [36, 98])], [], [], 1⟩
        [[36, 97], [36, 99]] [[102]] [[99]] true true true).variable_map [36, 99]).isSome :=
  ⟨(C9_write_once genConst ⟨[([36, 97], [36, 98])], [], [], 1⟩
      [[36, 97], [36, 99]] [[102]] [[99]] true true true [36, 97] [36, 98]).1 rfl,
    (C9_write_once genConst ⟨[([36, 97], [36, 98])], [], [], 1⟩
      [[36, 97], [36, 99]] [[102]] [[99]] true true true [36, 99] [36, 98]).2.2.2.1 rfl
      (by decide)⟩

/-- C10: the per-chunk iv field is write-only.  Every chunk record of
one encryption call carries the same iv, the base64 of the single
12-byte draw made before the loop; and decryption never reads it: two
serialized chunk lists that agree on everything except their iv fields
produce the same decryption outcome (same plaintext or same failure)
under any stored integrity value. -/
theorem C10_iv_ignored (g : GCM) (hm : Bytes → Bytes → Bytes) (rnd : Nat → Bytes)
    (data key fk : Bytes) (cs : Nat) (fkf sf : Option Bytes) (ihf : Bytes)
    (hrnd : RndValid rnd) (hlen : (rnd 0).length = 12) :
    (∀ c ∈ encrypt_chunks g rnd data key cs,
      c.iv = base64Encode (rnd 0) ∧ base64Decode c.iv = some (rnd 0) ∧
        (rnd 0).length = 12) ∧
    (∀ l1 l2 : List ChunkRec, (∀ c ∈ l1, chunkOK c) → (∀ c ∈ l2, chunkOK c) →
      SameExceptIv l1 l2 →
      decrypt_data g hm ⟨fkf, sf, some ihf, some (base64Encode (dumpChunks l1))⟩ fk =
        decrypt_data g hm ⟨fkf, sf, some ihf, some (base64Encode (dumpChunks l2))⟩ fk) := by
  constructor
  · intro c hc
    unfold encrypt_chunks at hc
    obtain ⟨i, _, rfl⟩ := List.mem_map.mp hc
    exact ⟨rfl, by rw [base64_roundtrip _ (hrnd 0)], hlen⟩
  · intro l1 l2 h1 h2 hsame
    simp only [decrypt_data, base64_roundtrip _ (dumpChunks_valid l1 h1),
      base64_roundtrip _ (dumpChunks_valid l2 h2), jsonLoadsChunks_dump l1 h1,
      jsonLoadsChunks_dump l2 h2, loop_same g fk l1 l2 hsame, verify_integrity,
      msg_same l1 l2 hsame]

theorem C10_iv_ignored_witness :
    (∀ c ∈ encrypt_chunks gT rndT [1, 2] [0] 8192,
      c.iv = base64Encode (rndT 0) ∧ base64Decode c.iv = some (rndT 0) ∧
        (rndT 0).length = 12) ∧
    (∀ l1 l2 : List ChunkRec, (∀ c ∈ l1, chunkOK c) → (∀ c ∈ l2, chunkOK c) →
      SameExceptIv l1 l2 →
      decrypt_data gT hmT ⟨none, none, some [2], some (base64Encode (dumpChunks l1))⟩ [0] =
        decrypt_data gT hmT ⟨none, none, some [2], some (base64Encode (dumpChunks l2))⟩ [0]) :=
  C10_iv_ignored gT hmT rndT [1, 2] [0] [0] 8192 none none [2] rndT_valid (by decide)

end PhpEnc
